import Mathlib

/-!
Quiz generation and answer checking of the hadith quiz backend.

A shallow embedding of `backend/main.go`: the fill-in-the-blank branch of
`getRandomQuiz`, the two branches of `checkAnswer`, and the helpers
`arraysEqual`, `arraysEqualString` and `sortUintArray`.

Modelling conventions.

* Go `string` values are Lean `String`s (sequences of Unicode code points).
* Go `uint` ids are `Nat` (no arithmetic is performed on them), Go `int`
  positions are `Int`; loop counters that only run upwards from `0` are `Nat`.
* `math/rand` is a stream of raw outputs `Rand := Nat → Nat`; `rand.Intn n`
  consumes the head of the stream and reduces it modulo `n`, so every value
  of `[0, n)` is a possible outcome and every theorem quantified over the
  stream holds for every outcome of the draws.
* Go slices are Lean lists. Where an index expression can be out of range
  (the word lookup of `checkAnswer`) the run-time panic is modelled by `none`;
  the loops of the generator and of the sort only index inside the slice.
-/

namespace HadithQuiz

/-! ## The parts of the Go standard library that the handlers call -/

/-- Go `unicode.IsSpace`: the Latin-1 spaces `\t \n \v \f \r`, space, U+0085,
U+00A0, and the code points with the Unicode White_Space property. -/
def isSpace (c : Char) : Bool :=
  let n := c.toNat
  (9 ≤ n && n ≤ 13) || n = 32 || n = 0x85 || n = 0xA0 || n = 0x1680 ||
  (0x2000 ≤ n && n ≤ 0x200A) || n = 0x2028 || n = 0x2029 || n = 0x202F ||
  n = 0x205F || n = 0x3000

/-- Loop of Go `strings.Fields`: `cur` holds the characters of the word being
read, the words are cut at every run of white space. -/
def fieldsAux : List Char → List Char → List String
  | [], cur => if cur.isEmpty then [] else [String.mk cur]
  | c :: cs, cur =>
    if isSpace c then
      (if cur.isEmpty then fieldsAux cs [] else String.mk cur :: fieldsAux cs [])
    else fieldsAux cs (cur ++ [c])

/-- Go `strings.Fields`: the maximal runs of non-space characters, in order. -/
def fields (s : String) : List String := fieldsAux s.data []

/-- Go `strings.TrimSpace`: drops leading and trailing white space. -/
def trimSpace (s : String) : String :=
  String.mk ((s.data.dropWhile isSpace).reverse.dropWhile isSpace).reverse

/-- Go `unicode.ToLower` on one code point: on ASCII, `A`..`Z` are moved to
`a`..`z`; above ASCII the Unicode case tables decide, which are the
parameter `tbl`. -/
def runeToLower (tbl : Char → Char) (c : Char) : Char :=
  if c.toNat < 128 then
    (if 65 ≤ c.toNat ∧ c.toNat ≤ 90 then Char.ofNat (c.toNat + 32) else c)
  else tbl c

/-- Go `strings.ToLower`: `unicode.ToLower` applied to every code point. -/
def toLower (tbl : Char → Char) (s : String) : String :=
  String.mk (s.data.map (runeToLower tbl))

/-- Go `strings.Join`. -/
def join (elems : List String) (sep : String) : String :=
  sep.intercalate elems

/-- Go `strings.Split(s, ",")` loop: `cur` holds the current piece. -/
def splitCommaAux : List Char → List Char → List String
  | [], cur => [String.mk cur]
  | c :: cs, cur =>
    if c = ',' then String.mk cur :: splitCommaAux cs [] else splitCommaAux cs (cur ++ [c])

/-- Go `strings.Split(s, ",")`. -/
def splitComma (s : String) : List String := splitCommaAux s.data []

/-- Stream of the raw outputs of the process-wide `math/rand` source. -/
abbrev Rand := Nat → Nat

/-- Go `rand.Intn n` for `n > 0`: a value of `[0, n)` and the rest of the stream. -/
def Intn (g : Rand) (n : Nat) : Nat × Rand :=
  (g 0 % n, fun k => g (k + 1))

/-! ## Models and request/response types -/

structure Companion where
  ID : Nat
  Name : String
  deriving DecidableEq, Repr

structure Source where
  ID : Nat
  Name : String
  deriving DecidableEq, Repr

structure Hadith where
  ID : Nat
  Text : String
  Companions : List Companion
  Sources : List Source
  deriving DecidableEq, Repr

/-- Go `QuizQuestion`; the field `Type` is called `Typ` here. -/
structure QuizQuestion where
  ID : Nat
  Text : String
  Typ : String
  Companions : List Companion
  Sources : List Source
  BlankText : String
  BlankWords : List String
  BlankIndices : List Int
  deriving DecidableEq, Repr

structure CheckAnswerRequest where
  HadithID : Nat
  QuestionType : String
  CompanionIDs : List Nat
  SourceIDs : List Nat
  FilledWords : List String
  BlankIndices : List Int
  deriving DecidableEq, Repr

structure CheckAnswerResponse where
  IsCorrect : Bool
  deriving DecidableEq, Repr

/-- How a handler can end without a JSON answer. -/
inductive HandlerError where
  | notFound (msg : String)
  | panicked
  deriving DecidableEq, Repr

/-! ## Helper functions (`main.go`, lines 451-488) -/

/-- Loop of `arraysEqual` / `arraysEqualString`, entered with slices of equal
length: the first differing position answers `false`. -/
def arraysEqualLoop {α : Type} [DecidableEq α] : List α → List α → Bool
  | x :: xs, y :: ys => if x ≠ y then false else arraysEqualLoop xs ys
  | _, _ => true

def arraysEqual (a b : List Nat) : Bool :=
  if a.length ≠ b.length then false else arraysEqualLoop a b

def arraysEqualString (a b : List String) : Bool :=
  if a.length ≠ b.length then false else arraysEqualLoop a b

/-- Body of the inner loop of `sortUintArray`:
`if sorted[j] > sorted[j+1] { swap }`. -/
def bubbleStep (sorted : List Nat) (j : Nat) : List Nat :=
  if sorted.getD j 0 > sorted.getD (j + 1) 0 then
    (sorted.set j (sorted.getD (j + 1) 0)).set (j + 1) (sorted.getD j 0)
  else sorted

/-- Inner loop of `sortUintArray`, `n` iterations left, counter at `j`. -/
def bubbleInner (sorted : List Nat) (j : Nat) : Nat → List Nat
  | 0 => sorted
  | n + 1 => bubbleInner (bubbleStep sorted j) (j + 1) n

/-- Outer loop of `sortUintArray`, `n` iterations left, counter at `i`; the
inner loop runs for `j` from `0` while `j < len(sorted)-1-i`. -/
def bubbleOuter (sorted : List Nat) (i : Nat) : Nat → List Nat
  | 0 => sorted
  | n + 1 => bubbleOuter (bubbleInner sorted 0 (sorted.length - 1 - i)) (i + 1) n

/-- Go `sortUintArray`: bubble sort of a copy of `arr`. -/
def sortUintArray (arr : List Nat) : List Nat :=
  bubbleOuter arr 0 arr.length

/-! ## `getRandomQuiz` (lines 227-330) -/

/-- Lines 236-254: the question types asked for by the `types` parameter. -/
def questionTypesOf (allowedTypes : String) : List String :=
  let questionTypes :=
    if allowedTypes ≠ "" then
      ((splitComma allowedTypes).map trimSpace).filter
        (fun t => t = "multiple_choice" ∨ t = "fill_blanks")
    else []
  if questionTypes.length = 0 then ["multiple_choice", "fill_blanks"] else questionTypes

/-- Lines 289-292: the slice `[1, 2, ..., n-2]` for a passage of `n` words. -/
def availableIndicesOf (n : Nat) : List Int :=
  (List.range (n - 2)).map (fun k => ((k + 1 : Nat) : Int))

/-- Go `a[i], a[j] = a[j], a[i]`. -/
def swapAt (a : List Int) (i j : Nat) : List Int :=
  (a.set i (a.getD j 0)).set j (a.getD i 0)

/-- Lines 295-298: `for i := start; i > 0; i-- { j := rand.Intn(i+1); swap }`,
given by the start value of `i`. -/
def shuffleFrom : Nat → List Int → Rand → List Int × Rand
  | 0, a, g => (a, g)
  | i + 1, a, g => shuffleFrom i (swapAt a (i + 1) (Intn g (i + 2)).1) (Intn g (i + 2)).2

/-- Lines 307-312: is word position `i` one of the blank indices? -/
def shouldBlank (i : Int) : List Int → Bool
  | [] => false
  | idx :: rest => if i = idx then true else shouldBlank i rest

/-- Lines 305-320, the loop over `words` from position `i` on: the pair
`(blankWords, blankedWords)`. -/
def blankLoop (blankIndices : List Int) : Nat → List String → List String × List String
  | _, [] => ([], [])
  | i, word :: rest =>
    if shouldBlank (i : Int) blankIndices then
      (word :: (blankLoop blankIndices (i + 1) rest).1,
        "____" :: (blankLoop blankIndices (i + 1) rest).2)
    else
      ((blankLoop blankIndices (i + 1) rest).1, word :: (blankLoop blankIndices (i + 1) rest).2)

/-- Lines 302-324, the blanking step: fills `BlankText`, `BlankWords` and
`BlankIndices` of the quiz from the chosen positions. -/
def blankStep (quiz : QuizQuestion) (words : List String) (blankIndices : List Int) :
    QuizQuestion :=
  { quiz with
    BlankText := join (blankLoop blankIndices 0 words).2 " "
    BlankWords := (blankLoop blankIndices 0 words).1
    BlankIndices := blankIndices }

/-- Lines 283-286: the number of blanks, from the draw `rand.Intn(3)`. -/
def numBlanksOf (n : Nat) (draw : Nat) : Nat :=
  if 2 + draw > n - 2 then n - 2 else 2 + draw

/-- Lines 280-325: the `fill_blanks` branch of `getRandomQuiz`. -/
def fillBlanks (quiz : QuizQuestion) (text : String) (g : Rand) : QuizQuestion × Rand :=
  let words := fields text
  if words.length > 5 then
    let numBlanks := numBlanksOf words.length (Intn g 3).1
    let shuffled :=
      shuffleFrom (words.length - 2 - 1) (availableIndicesOf words.length) (Intn g 3).2
    (blankStep quiz words (shuffled.1.take numBlanks), shuffled.2)
  else (quiz, g)

/-- Go `getRandomQuiz`, given the rows the store returns and the `types`
query parameter. -/
def getRandomQuiz (hadiths : List Hadith) (allCompanions : List Companion)
    (allSources : List Source) (allowedTypes : String) (g : Rand) :
    Except HandlerError QuizQuestion :=
  match hadiths with
  | [] => .error (.notFound "No hadiths found")
  | h0 :: hs =>
    let questionTypes := questionTypesOf allowedTypes
    let hadith := (h0 :: hs).getD (Intn g (h0 :: hs).length).1 h0
    let g1 := (Intn g (h0 :: hs).length).2
    let questionType := questionTypes.getD (Intn g1 questionTypes.length).1 ""
    let g2 := (Intn g1 questionTypes.length).2
    let quiz : QuizQuestion :=
      { ID := hadith.ID, Text := hadith.Text, Typ := questionType, Companions := [],
        Sources := [], BlankText := "", BlankWords := [], BlankIndices := [] }
    if questionType = "multiple_choice" then
      .ok { quiz with Companions := allCompanions, Sources := allSources }
    else if questionType = "fill_blanks" then
      .ok (fillBlanks quiz hadith.Text g2).1
    else .ok quiz

/-! ## `checkAnswer` (lines 333-395) -/

/-- Go index expression `words[idx]`: out of range is a run-time panic. -/
def wordAt (words : List String) (idx : Int) : Option String :=
  if idx < 0 then none else words[idx.toNat]?

/-- Lines 371-376: the words at the submitted positions that are
`< len(words)`; `none` when an index expression panics. -/
def correctWordsAt (words : List String) : List Int → Option (List String)
  | [] => some []
  | idx :: rest =>
    if idx < (words.length : Int) then
      match wordAt words idx with
      | none => none
      | some w => (correctWordsAt words rest).map (fun ws => w :: ws)
    else correctWordsAt words rest

/-- Lines 347-391 of `checkAnswer`, for the passage found in the store;
`none` when the handler panics. -/
def checkAnswerOn (tbl : Char → Char) (hadith : Hadith) (req : CheckAnswerRequest) :
    Option CheckAnswerResponse :=
  if req.QuestionType = "multiple_choice" then
    let correctCompanionIDs := hadith.Companions.map (fun c => c.ID)
    let correctSourceIDs := hadith.Sources.map (fun s => s.ID)
    let companionsMatch :=
      arraysEqual (sortUintArray req.CompanionIDs) (sortUintArray correctCompanionIDs)
    let sourcesMatch :=
      arraysEqual (sortUintArray req.SourceIDs) (sortUintArray correctSourceIDs)
    some { IsCorrect := companionsMatch && sourcesMatch }
  else if req.QuestionType = "fill_blanks" then
    let words := fields hadith.Text
    if words.length > 5 ∧ req.BlankIndices.length > 0 then
      match correctWordsAt words req.BlankIndices with
      | none => none
      | some correctWords =>
        let userWords := req.FilledWords.map (fun word => toLower tbl (trimSpace word))
        let correctWordsLower := correctWords.map (fun word => toLower tbl word)
        some { IsCorrect := arraysEqualString userWords correctWordsLower }
    else some { IsCorrect := false }
  else some { IsCorrect := false }

/-- Go `checkAnswer` on a decoded request; `db` is the lookup of a passage,
with its companions and sources, by id. -/
def checkAnswer (tbl : Char → Char) (db : Nat → Option Hadith) (req : CheckAnswerRequest) :
    Except HandlerError CheckAnswerResponse :=
  match db req.HadithID with
  | none => .error (.notFound "Hadith not found")
  | some hadith =>
    match checkAnswerOn tbl hadith req with
    | none => .error .panicked
    | some response => .ok response

/-! ## `getCorrectAnswer` (lines 398-449) -/

structure GetCorrectAnswerResponse where
  CorrectCompanions : List Companion
  CorrectSources : List Source
  CorrectWords : List String
  FullText : String
  deriving DecidableEq, Repr

/-- How `getCorrectAnswer` can end without a JSON answer. -/
inductive RevealError where
  | invalidID
  | notFound
  | panicked
  deriving DecidableEq, Repr

/-- Value of a decimal digit, `none` for any other character. -/
def digitVal (c : Char) : Option Nat :=
  if 48 ≤ c.toNat ∧ c.toNat ≤ 57 then some (c.toNat - 48) else none

/-- Digit loop of Go `strconv.Atoi`: `n = n*10 + digit`, an error on any
other character. -/
def parseDigits : List Char → Nat → Option Nat
  | [], acc => some acc
  | c :: cs, acc =>
    match digitVal c with
    | none => none
    | some d => parseDigits cs (acc * 10 + d)

/-- Go `strconv.Atoi` on a 64-bit platform: an optional sign, then at least
one decimal digit, the value inside the range of `int`; `none` is the error. -/
def atoi (s : String) : Option Int :=
  match s.data with
  | [] => none
  | c :: cs =>
    if c = '-' then
      (if cs.isEmpty then none
       else match parseDigits cs 0 with
         | none => none
         | some n => if n ≤ 2 ^ 63 then some (-(n : Int)) else none)
    else if c = '+' then
      (if cs.isEmpty then none
       else match parseDigits cs 0 with
         | none => none
         | some n => if n < 2 ^ 63 then some (n : Int) else none)
    else
      match parseDigits (c :: cs) 0 with
      | none => none
      | some n => if n < 2 ^ 63 then some (n : Int) else none

/-- Lines 430-435: the entries of the comma-separated list that parse as
integers, the other entries skipped. -/
def parseBlankIndices (blankIndicesStr : String) : List Int :=
  (splitComma blankIndicesStr).filterMap (fun idxStr => atoi (trimSpace idxStr))

/-- Go `getCorrectAnswer`: `idVar` is the path variable `id`, `questionType`
and `blankIndicesStr` are the query parameters `type` and `blank_indices`
(empty when absent), `db` is the lookup of a passage by id. The word lookup of
lines 437-442 is the same loop as in `checkAnswer`. -/
def getCorrectAnswer (db : Int → Option Hadith) (idVar questionType blankIndicesStr : String) :
    Except RevealError GetCorrectAnswerResponse :=
  match atoi idVar with
  | none => .error .invalidID
  | some id =>
    match db id with
    | none => .error .notFound
    | some hadith =>
      let response : GetCorrectAnswerResponse :=
        { FullText := hadith.Text, CorrectCompanions := hadith.Companions,
          CorrectSources := hadith.Sources, CorrectWords := [] }
      if questionType = "fill_blanks" then
        if blankIndicesStr ≠ "" then
          match correctWordsAt (fields hadith.Text) (parseBlankIndices blankIndicesStr) with
          | none => .error .panicked
          | some correctWords => .ok { response with CorrectWords := correctWords }
        else .ok response
      else .ok response

/-! ## `sortUintArray` with its two slices as explicit state -/

/-- Go `copy(dst, src)`: the first `min(len(dst), len(src))` entries of `dst`
are overwritten by those of `src`. -/
def copySlice (dst src : List Nat) : List Nat :=
  src.take (min dst.length src.length) ++ dst.drop (min dst.length src.length)

/-- The two slices that `sortUintArray` works with. -/
structure SortMem where
  arr : List Nat
  sorted : List Nat
  deriving DecidableEq, Repr

/-- Lines 477-478: `sorted := make([]uint, len(arr)); copy(sorted, arr)`. -/
def sortInit (arr : List Nat) : SortMem :=
  { arr := arr, sorted := copySlice (List.replicate arr.length 0) arr }

/-- Lines 480-487: the two loops write to `sorted` only; the final state
holds the caller's slice and the returned one. -/
def sortUintArrayMem (arr : List Nat) : SortMem :=
  { sortInit arr with
    sorted := bubbleOuter (sortInit arr).sorted 0 (sortInit arr).sorted.length }

/-! ## Notions used to state the properties -/

/-- The word positions `0 ≤ i < n`, in ascending order, that the loop of
lines 305-320 blanks for the given blank indices. -/
def blankedPositions (n : Nat) (blankIndices : List Int) : List Int :=
  ((List.range n).map (fun (i : Nat) => (i : Int))).filter (fun i => shouldBlank i blankIndices)

/-- The string `e` is `t` with white space added in front and behind. -/
def PaddedFrom (e t : String) : Prop :=
  ∃ l r : List Char, (∀ c ∈ l, isSpace c = true) ∧ (∀ c ∈ r, isSpace c = true) ∧
    e.data = l ++ t.data ++ r

/-- What an entry of the `types` parameter stands for: one of the two question
types when the entry is that literal up to surrounding white space, nothing
otherwise. -/
def EntryKind (e : String) (k : Option String) : Prop :=
  (k = some "multiple_choice" ∧ PaddedFrom e "multiple_choice") ∨
  (k = some "fill_blanks" ∧ PaddedFrom e "fill_blanks") ∨
  (k = none ∧ ¬ PaddedFrom e "multiple_choice" ∧ ¬ PaddedFrom e "fill_blanks")

/-- The entries of the `types` parameter that, once trimmed, are one of the
two question types, in the order given. -/
def recognizedTypes (allowedTypes : String) : List String :=
  ((splitComma allowedTypes).map trimSpace).filter
    (fun t => t = "multiple_choice" ∨ t = "fill_blanks")

/-! ## Lemmas on swapping two entries of a slice -/

theorem set_set_perm_self {α : Type} [DecidableEq α] (a : List α) (i j : Nat)
    (hi : i < a.length) (hj : j < a.length) :
    ((a.set i a[j]).set j a[i]).Perm a := by
  rw [List.perm_iff_count]
  intro b
  by_cases hij : i = j
  · subst hij
    have hself : a.set i a[i] = a := by
      apply List.ext_getElem (by simp)
      intro n h1 h2
      rw [List.getElem_set]
      split
      · next h => subst h; rfl
      · rfl
    simp [hself]
  · have hj2 : j < (a.set i a[j]).length := by simpa using hj
    rw [List.count_set _ _ _ _ hj2, List.count_set _ _ _ _ hi]
    have hget : (a.set i a[j])[j] = a[j] := by
      rw [List.getElem_set]
      simp [hij]
    rw [hget]
    have hpos : a[i] = b → 0 < a.count b := by
      intro hb
      exact List.count_pos_iff.mpr (hb ▸ List.getElem_mem hi)
    by_cases h1 : a[i] = b <;> by_cases h2 : a[j] = b <;> simp [h1, h2]
    · have := hpos h1
      omega
    · have := hpos h1
      omega

theorem swapAt_perm (a : List Int) (i j : Nat) (hi : i < a.length) (hj : j < a.length) :
    (swapAt a i j).Perm a := by
  unfold swapAt
  rw [List.getD_eq_getElem _ _ hi, List.getD_eq_getElem _ _ hj]
  exact set_set_perm_self a i j hi hj

theorem shuffleFrom_perm (i : Nat) : ∀ (a : List Int) (g : Rand), i < a.length →
    (shuffleFrom i a g).1.Perm a := by
  induction i with
  | zero => intro a g _; exact List.Perm.refl _
  | succ i ih =>
    intro a g hi
    have hj : (Intn g (i + 2)).1 < a.length := by
      have : (Intn g (i + 2)).1 < i + 2 := Nat.mod_lt _ (by omega)
      omega
    have hp := swapAt_perm a (i + 1) (Intn g (i + 2)).1 hi hj
    have hlen := hp.length_eq
    show (shuffleFrom i (swapAt a (i + 1) (Intn g (i + 2)).1) (Intn g (i + 2)).2).1.Perm a
    exact (ih _ _ (by omega)).trans hp

/-! ## The chosen blank positions -/

theorem length_availableIndicesOf (n : Nat) : (availableIndicesOf n).length = n - 2 := by
  simp [availableIndicesOf]

theorem nodup_availableIndicesOf (n : Nat) : (availableIndicesOf n).Nodup := by
  unfold availableIndicesOf
  refine List.Nodup.map ?_ (List.nodup_range _)
  intro x y hxy
  simp only at hxy
  omega

theorem mem_availableIndicesOf {n : Nat} {idx : Int} (h : idx ∈ availableIndicesOf n) :
    1 ≤ idx ∧ idx ≤ (n : Int) - 2 := by
  unfold availableIndicesOf at h
  rcases List.mem_map.mp h with ⟨k, hk, rfl⟩
  have := List.mem_range.mp hk
  omega

/-- The positions chosen by the `fill_blanks` branch: the first `numBlanks`
entries of the shuffled interior positions. -/
theorem fillBlanks_blankIndices (quiz : QuizQuestion) (text : String) (g : Rand)
    (h : 5 < (fields text).length) :
    (fillBlanks quiz text g).1.BlankIndices =
      (shuffleFrom ((fields text).length - 2 - 1) (availableIndicesOf (fields text).length)
        (Intn g 3).2).1.take (numBlanksOf (fields text).length (Intn g 3).1) := by
  simp [fillBlanks, h, blankStep]

theorem shuffled_perm (n : Nat) (g : Rand) (h : 5 < n) :
    (shuffleFrom (n - 2 - 1) (availableIndicesOf n) g).1.Perm (availableIndicesOf n) := by
  apply shuffleFrom_perm
  rw [length_availableIndicesOf]
  omega

theorem numBlanksOf_bounds (n : Nat) (g : Rand) (h : 5 < n) :
    2 ≤ numBlanksOf n (Intn g 3).1 ∧ numBlanksOf n (Intn g 3).1 ≤ 4 := by
  have : (Intn g 3).1 < 3 := Nat.mod_lt _ (by omega)
  unfold numBlanksOf
  split <;> omega

/-- C1: for a passage of more than 5 words and every outcome of the draws, the
blank indices of the `fill_blanks` branch are pairwise distinct, each lies in
`1..wordCount-2` (never position 0, never the last position), and there are at
least 2 and at most `min(4, wordCount-2)` of them. -/
theorem fillBlanks_indices_distinct_interior_count (quiz : QuizQuestion) (text : String)
    (g : Rand) (h : 5 < (fields text).length) :
    (fillBlanks quiz text g).1.BlankIndices.Nodup ∧
    (∀ idx ∈ (fillBlanks quiz text g).1.BlankIndices,
      1 ≤ idx ∧ idx ≤ ((fields text).length : Int) - 2) ∧
    2 ≤ (fillBlanks quiz text g).1.BlankIndices.length ∧
    (fillBlanks quiz text g).1.BlankIndices.length ≤ min 4 ((fields text).length - 2) := by
  rw [fillBlanks_blankIndices quiz text g h]
  have hp := shuffled_perm (fields text).length (Intn g 3).2 h
  have hb := numBlanksOf_bounds (fields text).length g h
  have hlen := hp.length_eq
  rw [length_availableIndicesOf] at hlen
  refine ⟨?_, ?_, ?_, ?_⟩
  · exact ((hp.nodup_iff).mpr (nodup_availableIndicesOf _)).sublist (List.take_sublist _ _)
  · intro idx hidx
    exact mem_availableIndicesOf (hp.subset (List.mem_of_mem_take hidx))
  · rw [List.length_take, hlen]
    omega
  · rw [List.length_take, hlen]
    omega

/-- Witness of C1 on the six-word passage `a b c d e f`. -/
theorem fillBlanks_indices_distinct_interior_count_witness :
    5 < (fields "a b c d e f").length ∧
    (fillBlanks ⟨1, "a b c d e f", "fill_blanks", [], [], "", [], []⟩ "a b c d e f"
      (fun k => [0, 0, 2, 1].getD k 0)).1.BlankIndices.Nodup ∧
    (∀ idx ∈ (fillBlanks ⟨1, "a b c d e f", "fill_blanks", [], [], "", [], []⟩ "a b c d e f"
      (fun k => [0, 0, 2, 1].getD k 0)).1.BlankIndices,
      1 ≤ idx ∧ idx ≤ ((fields "a b c d e f").length : Int) - 2) ∧
    2 ≤ (fillBlanks ⟨1, "a b c d e f", "fill_blanks", [], [], "", [], []⟩ "a b c d e f"
      (fun k => [0, 0, 2, 1].getD k 0)).1.BlankIndices.length ∧
    (fillBlanks ⟨1, "a b c d e f", "fill_blanks", [], [], "", [], []⟩ "a b c d e f"
      (fun k => [0, 0, 2, 1].getD k 0)).1.BlankIndices.length ≤
      min 4 ((fields "a b c d e f").length - 2) :=
  ⟨by decide,
   fillBlanks_indices_distinct_interior_count
      ⟨1, "a b c d e f", "fill_blanks", [], [], "", [], []⟩
      "a b c d e f" (fun k => [0, 0, 2, 1].getD k 0) (by decide)⟩

theorem shouldBlank_iff_mem (i : Int) (l : List Int) : shouldBlank i l = true ↔ i ∈ l := by
  induction l with
  | nil => simp [shouldBlank]
  | cons idx rest ih =>
    unfold shouldBlank
    by_cases h : i = idx
    · simp [h]
    · simp [h, ih]

theorem sorted_blankedPositions (n : Nat) (l : List Int) :
    (blankedPositions n l).Sorted (· < ·) := by
  unfold blankedPositions
  apply List.Pairwise.filter
  exact (List.pairwise_lt_range n).map _ (fun a b hab => by exact_mod_cast hab)

theorem mem_blankedPositions (n : Nat) (l : List Int) (i : Int) :
    i ∈ blankedPositions n l ↔ (0 ≤ i ∧ i < (n : Int)) ∧ i ∈ l := by
  unfold blankedPositions
  rw [List.mem_filter, shouldBlank_iff_mem]
  apply and_congr_left
  intro _
  rw [List.mem_map]
  constructor
  · rintro ⟨k, hk, rfl⟩
    have := List.mem_range.mp hk
    omega
  · rintro ⟨h0, h1⟩
    refine ⟨i.toNat, List.mem_range.mpr (by omega), by omega⟩

/-- C2, at the failing input: on the passage `a b c d e f` with the draws
`0, 0, 2, 1` the branch returns the blank indices `[4, 2]`, which is not
strictly ascending. -/
theorem fillBlanks_indices_not_ascending :
    5 < (fields "a b c d e f").length ∧
    (fillBlanks ⟨1, "a b c d e f", "fill_blanks", [], [], "", [], []⟩ "a b c d e f"
      (fun k => [0, 0, 2, 1].getD k 0)).1.BlankIndices = [4, 2] ∧
    ¬ List.Sorted (· < ·)
      (fillBlanks ⟨1, "a b c d e f", "fill_blanks", [], [], "", [], []⟩ "a b c d e f"
        (fun k => [0, 0, 2, 1].getD k 0)).1.BlankIndices := by
  refine ⟨by decide, by decide, ?_⟩
  have h : (fillBlanks ⟨1, "a b c d e f", "fill_blanks", [], [], "", [], []⟩ "a b c d e f"
      (fun k => [0, 0, 2, 1].getD k 0)).1.BlankIndices = [4, 2] := by decide
  rw [h]
  simp [List.Sorted]

/-- Whatever their order, the blank indices are a rearrangement of the
strictly ascending list of the positions that are blanked in the text. -/
theorem fillBlanks_indices_perm_ascending (quiz : QuizQuestion) (text : String) (g : Rand)
    (h : 5 < (fields text).length) :
    (blankedPositions (fields text).length (fillBlanks quiz text g).1.BlankIndices).Sorted
      (· < ·) ∧
    (blankedPositions (fields text).length (fillBlanks quiz text g).1.BlankIndices).Perm
      (fillBlanks quiz text g).1.BlankIndices := by
  refine ⟨sorted_blankedPositions _ _, ?_⟩
  have hC1 := fillBlanks_blankIndices quiz text g h
  have hnd : (fillBlanks quiz text g).1.BlankIndices.Nodup := by
    rw [hC1]
    exact (((shuffled_perm _ _ h).nodup_iff).mpr (nodup_availableIndicesOf _)).sublist
      (List.take_sublist _ _)
  have hmem : ∀ idx ∈ (fillBlanks quiz text g).1.BlankIndices,
      1 ≤ idx ∧ idx ≤ ((fields text).length : Int) - 2 := by
    rw [hC1]
    intro idx hidx
    exact mem_availableIndicesOf ((shuffled_perm _ _ h).subset (List.mem_of_mem_take hidx))
  rw [List.perm_ext_iff_of_nodup (sorted_blankedPositions _ _).nodup hnd]
  intro i
  rw [mem_blankedPositions]
  constructor
  · exact fun hi => hi.2
  · intro hi
    have := hmem i hi
    exact ⟨⟨by omega, by omega⟩, hi⟩

/-- The rearrangement on the passage `a b c d e f` with the draws `0, 0, 2, 1`. -/
theorem fillBlanks_indices_perm_ascending_witness :
    5 < (fields "a b c d e f").length ∧
    (blankedPositions (fields "a b c d e f").length
      (fillBlanks ⟨1, "a b c d e f", "fill_blanks", [], [], "", [], []⟩ "a b c d e f"
        (fun k => [0, 0, 2, 1].getD k 0)).1.BlankIndices).Sorted (· < ·) ∧
    (blankedPositions (fields "a b c d e f").length
      (fillBlanks ⟨1, "a b c d e f", "fill_blanks", [], [], "", [], []⟩ "a b c d e f"
        (fun k => [0, 0, 2, 1].getD k 0)).1.BlankIndices).Perm
      (fillBlanks ⟨1, "a b c d e f", "fill_blanks", [], [], "", [], []⟩ "a b c d e f"
        (fun k => [0, 0, 2, 1].getD k 0)).1.BlankIndices :=
  ⟨by decide,
   fillBlanks_indices_perm_ascending ⟨1, "a b c d e f", "fill_blanks", [], [], "", [], []⟩
      "a b c d e f" (fun k => [0, 0, 2, 1].getD k 0) (by decide)⟩

/-- C3, at the failing input: on the passage `a b c d e f` with the draws
`0, 0, 2, 1` the branch returns the blank words `["c", "e"]` with the blank
indices `[4, 2]`, so the first blank word is `c` while the word of the passage
at the first blank index is `e`. -/
theorem fillBlanks_words_not_aligned :
    5 < (fields "a b c d e f").length ∧
    (fillBlanks ⟨1, "a b c d e f", "fill_blanks", [], [], "", [], []⟩ "a b c d e f"
      (fun k => [0, 0, 2, 1].getD k 0)).1.BlankWords = ["c", "e"] ∧
    (fillBlanks ⟨1, "a b c d e f", "fill_blanks", [], [], "", [], []⟩ "a b c d e f"
      (fun k => [0, 0, 2, 1].getD k 0)).1.BlankIndices = [4, 2] ∧
    wordAt (fields "a b c d e f") 4 = some "e" := by
  refine ⟨by decide, by decide, by decide, by decide⟩

/-- The blanking step leaves the identity and the type of the quiz alone. -/
theorem fillBlanks_typ (quiz : QuizQuestion) (text : String) (g : Rand) :
    (fillBlanks quiz text g).1.Typ = quiz.Typ ∧ (fillBlanks quiz text g).1.ID = quiz.ID ∧
      (fillBlanks quiz text g).1.Text = quiz.Text := by
  unfold fillBlanks
  by_cases h : (fields text).length > 5
  · simp [h, blankStep]
  · simp [h]

/-- A `fill_blanks` answer of `getRandomQuiz` is the result of the
`fill_blanks` branch on one of the stored passages. -/
theorem getRandomQuiz_fill_blanks (hadiths : List Hadith) (allCompanions : List Companion)
    (allSources : List Source) (allowedTypes : String) (g : Rand) (q : QuizQuestion)
    (hq : getRandomQuiz hadiths allCompanions allSources allowedTypes g = .ok q)
    (htyp : q.Typ = "fill_blanks") :
    ∃ hadith ∈ hadiths, ∃ g2 : Rand,
      q = (fillBlanks ⟨hadith.ID, hadith.Text, "fill_blanks", [], [], "", [], []⟩
        hadith.Text g2).1 := by
  cases hadiths with
  | nil => simp [getRandomQuiz] at hq
  | cons h0 hs =>
    simp only [getRandomQuiz] at hq
    have hmem : (h0 :: hs).getD (Intn g (h0 :: hs).length).1 h0 ∈ h0 :: hs := by
      have hlt : (Intn g (h0 :: hs).length).1 < (h0 :: hs).length :=
        Nat.mod_lt _ (by simp)
      rw [List.getD_eq_getElem _ _ hlt]
      exact List.getElem_mem hlt
    split at hq
    · next hmc =>
      injection hq with hq
      rw [← hq] at htyp
      simp only at htyp
      rw [hmc] at htyp
      exact absurd htyp (by decide)
    · split at hq
      · next hfb =>
        injection hq with hq
        refine ⟨_, hmem,
          (Intn (Intn g (h0 :: hs).length).2 (questionTypesOf allowedTypes).length).2, ?_⟩
        rw [← hq, hfb]
      · next hfb =>
        injection hq with hq
        rw [← hq] at htyp
        exact absurd htyp hfb

/-! ## `sortUintArray` sorts -/

theorem getD_set_nat (a : List Nat) (i k v : Nat) (hi : i < a.length) :
    (a.set i v).getD k 0 = if k = i then v else a.getD k 0 := by
  simp only [List.getD_eq_getElem?_getD, List.getElem?_set]
  by_cases hk : k = i
  · subst hk
    simp [hi]
  · have : ¬ i = k := fun h => hk h.symm
    simp [hk, this]

theorem length_bubbleStep (a : List Nat) (j : Nat) : (bubbleStep a j).length = a.length := by
  unfold bubbleStep
  split <;> simp

theorem bubbleStep_perm (a : List Nat) (j : Nat) (hj : j + 1 < a.length) :
    (bubbleStep a j).Perm a := by
  unfold bubbleStep
  split
  · rw [List.getD_eq_getElem _ _ hj, List.getD_eq_getElem _ _ (by omega : j < a.length)]
    exact set_set_perm_self a j (j + 1) (by omega) hj
  · exact List.Perm.refl _

theorem getD_bubbleStep (a : List Nat) (j k : Nat) (hj : j + 1 < a.length) :
    (bubbleStep a j).getD k 0 =
      if k = j then min (a.getD j 0) (a.getD (j + 1) 0)
      else if k = j + 1 then max (a.getD j 0) (a.getD (j + 1) 0)
      else a.getD k 0 := by
  unfold bubbleStep
  by_cases hgt : a.getD j 0 > a.getD (j + 1) 0
  · rw [if_pos hgt, getD_set_nat _ _ _ _ (by simpa using hj),
      getD_set_nat _ _ _ _ (by omega : j < a.length)]
    by_cases h1 : k = j
    · have : ¬ k = j + 1 := by omega
      simp only [h1, if_true]
      rw [if_neg (by omega)]
      omega
    · by_cases h2 : k = j + 1
      · simp only [h2, if_true]
        rw [if_neg (by omega)]
        omega
      · simp [h1, h2]
  · rw [if_neg hgt]
    by_cases h1 : k = j
    · subst h1
      simp only [if_true]
      omega
    · by_cases h2 : k = j + 1
      · subst h2
        rw [if_neg h1, if_pos rfl]
        omega
      · simp [h1, h2]

theorem length_bubbleInner (n : Nat) : ∀ (a : List Nat) (j : Nat),
    (bubbleInner a j n).length = a.length := by
  induction n with
  | zero => intro a j; rfl
  | succ n ih =>
    intro a j
    show (bubbleInner (bubbleStep a j) (j + 1) n).length = a.length
    rw [ih, length_bubbleStep]

theorem bubbleInner_perm (n : Nat) : ∀ (a : List Nat) (j : Nat), j + n < a.length →
    (bubbleInner a j n).Perm a := by
  induction n with
  | zero => intro a j _; exact List.Perm.refl _
  | succ n ih =>
    intro a j h
    show (bubbleInner (bubbleStep a j) (j + 1) n).Perm a
    exact (ih _ _ (by rw [length_bubbleStep]; omega)).trans (bubbleStep_perm a j (by omega))

/-- The inner loop leaves the entries outside `[j, j+n]` alone. -/
theorem getD_bubbleInner_outside (n : Nat) : ∀ (a : List Nat) (j k : Nat), j + n < a.length →
    (k < j ∨ j + n < k) → (bubbleInner a j n).getD k 0 = a.getD k 0 := by
  induction n with
  | zero => intro a j k _ _; rfl
  | succ n ih =>
    intro a j k h hk
    show (bubbleInner (bubbleStep a j) (j + 1) n).getD k 0 = a.getD k 0
    rw [ih _ _ _ (by rw [length_bubbleStep]; omega) (by omega), getD_bubbleStep a j k (by omega),
      if_neg (by omega), if_neg (by omega)]

/-- Every entry of the window `[0, j+n]` after the inner loop was in that
window before. -/
theorem getD_bubbleInner_window (n : Nat) : ∀ (a : List Nat) (j k : Nat), j + n < a.length →
    k ≤ j + n → ∃ k2, k2 ≤ j + n ∧ (bubbleInner a j n).getD k 0 = a.getD k2 0 := by
  induction n with
  | zero => intro a j k _ hk; exact ⟨k, hk, rfl⟩
  | succ n ih =>
    intro a j k h hk
    obtain ⟨k2, hk2, heq⟩ := ih (bubbleStep a j) (j + 1) k (by rw [length_bubbleStep]; omega)
      (by omega)
    show ∃ k2, k2 ≤ j + (n + 1) ∧ (bubbleInner (bubbleStep a j) (j + 1) n).getD k 0 = a.getD k2 0
    rw [heq, getD_bubbleStep a j k2 (by omega)]
    by_cases h1 : k2 = j
    · rw [if_pos h1]
      rcases Nat.le_total (a.getD j 0) (a.getD (j + 1) 0) with hle | hle
      · exact ⟨j, by omega, by rw [Nat.min_eq_left hle]⟩
      · exact ⟨j + 1, by omega, by rw [Nat.min_eq_right hle]⟩
    · rw [if_neg h1]
      by_cases h2 : k2 = j + 1
      · rw [if_pos h2]
        rcases Nat.le_total (a.getD j 0) (a.getD (j + 1) 0) with hle | hle
        · exact ⟨j + 1, by omega, by rw [Nat.max_eq_right hle]⟩
        · exact ⟨j, by omega, by rw [Nat.max_eq_left hle]⟩
      · rw [if_neg h2]
        exact ⟨k2, by omega, rfl⟩

/-- The inner loop carries the largest entry seen so far to its last position. -/
theorem getD_bubbleInner_max (n : Nat) : ∀ (a : List Nat) (j : Nat), j + n < a.length →
    (∀ k, k ≤ j → a.getD k 0 ≤ a.getD j 0) →
    ∀ k, k ≤ j + n → (bubbleInner a j n).getD k 0 ≤ (bubbleInner a j n).getD (j + n) 0 := by
  induction n with
  | zero => intro a j _ hmax k hk; exact hmax k hk
  | succ n ih =>
    intro a j h hmax k hk
    have hstep : ∀ k, k ≤ j + 1 →
        (bubbleStep a j).getD k 0 ≤ (bubbleStep a j).getD (j + 1) 0 := by
      intro k hk
      have hl := getD_bubbleStep a j (j + 1) (by omega)
      rw [if_neg (by omega : ¬ j + 1 = j), if_pos rfl] at hl
      have hkk := getD_bubbleStep a j k (by omega)
      rw [hl, hkk]
      by_cases h1 : k = j
      · rw [if_pos h1]
        omega
      · rw [if_neg h1]
        by_cases h2 : k = j + 1
        · rw [if_pos h2]
        · rw [if_neg h2]
          have := hmax k (by omega)
          omega
    have := ih (bubbleStep a j) (j + 1) (by rw [length_bubbleStep]; omega) hstep k (by omega)
    have e : j + 1 + n = j + (n + 1) := by omega
    rw [e] at this
    exact this

/-- Invariant of the outer loop before iteration `i`: each of the last `i`
entries is at least as large as every entry before it. -/
theorem bubbleInner_pass (a : List Nat) (i : Nat) (hi : i < a.length)
    (hinv : ∀ k l, k < l → a.length - i ≤ l → l < a.length → a.getD k 0 ≤ a.getD l 0) :
    ∀ k l, k < l → a.length - (i + 1) ≤ l → l < a.length →
      (bubbleInner a 0 (a.length - 1 - i)).getD k 0 ≤
        (bubbleInner a 0 (a.length - 1 - i)).getD l 0 := by
  intro k l hkl hl hlen
  have hm : 0 + (a.length - 1 - i) < a.length := by omega
  by_cases hlm : l = a.length - 1 - i
  · have := getD_bubbleInner_max (a.length - 1 - i) a 0 hm
      (fun k hk => by
        have : k = 0 := by omega
        rw [this]) k (by omega)
    rw [Nat.zero_add] at this
    rw [hlm]
    exact this
  · rw [getD_bubbleInner_outside _ a 0 l hm (by omega)]
    by_cases hk : a.length - 1 - i < k
    · rw [getD_bubbleInner_outside _ a 0 k hm (by omega)]
      exact hinv k l hkl (by omega) hlen
    · obtain ⟨k2, hk2, heq⟩ := getD_bubbleInner_window _ a 0 k hm (by omega)
      rw [heq]
      exact hinv k2 l (by omega) (by omega) hlen

theorem bubbleOuter_spec (n : Nat) : ∀ (a : List Nat) (i : Nat), i + n = a.length →
    (∀ k l, k < l → a.length - i ≤ l → l < a.length → a.getD k 0 ≤ a.getD l 0) →
    (bubbleOuter a i n).Perm a ∧
    (∀ k l, k < l → l < a.length →
      (bubbleOuter a i n).getD k 0 ≤ (bubbleOuter a i n).getD l 0) := by
  induction n with
  | zero =>
    intro a i hin hinv
    exact ⟨List.Perm.refl _, fun k l hkl hl => hinv k l hkl (by omega) hl⟩
  | succ n ih =>
    intro a i hin hinv
    have hp : (bubbleInner a 0 (a.length - 1 - i)).Perm a :=
      bubbleInner_perm _ a 0 (by omega)
    have hlen := length_bubbleInner (a.length - 1 - i) a 0
    have hpass := bubbleInner_pass a i (by omega) hinv
    obtain ⟨h1, h2⟩ := ih (bubbleInner a 0 (a.length - 1 - i)) (i + 1) (by omega)
      (by rw [hlen]; exact hpass)
    refine ⟨h1.trans hp, ?_⟩
    intro k l hkl hl
    exact h2 k l hkl (by omega)

theorem sortUintArray_perm (arr : List Nat) : (sortUintArray arr).Perm arr :=
  (bubbleOuter_spec arr.length arr 0 (by omega) (fun k l _ h1 h2 => by omega)).1

theorem sortUintArray_sorted (arr : List Nat) : (sortUintArray arr).Sorted (· ≤ ·) := by
  have h := bubbleOuter_spec arr.length arr 0 (by omega) (fun k l _ h1 h2 => by omega)
  have hlen : (sortUintArray arr).length = arr.length := h.1.length_eq
  unfold List.Sorted
  rw [List.pairwise_iff_getElem]
  intro k l hk hl hkl
  have := h.2 k l hkl (by omega)
  unfold sortUintArray
  unfold sortUintArray at hk hl
  rw [List.getD_eq_getElem _ _ hk, List.getD_eq_getElem _ _ hl] at this
  exact this

/-- Two slices have the same sorted copy exactly when they are permutations
of each other. -/
theorem sortUintArray_eq_iff_perm (a b : List Nat) :
    sortUintArray a = sortUintArray b ↔ a.Perm b := by
  constructor
  · intro h
    exact (sortUintArray_perm a).symm.trans (h ▸ sortUintArray_perm b)
  · intro h
    exact List.eq_of_perm_of_sorted
      (((sortUintArray_perm a).trans h).trans (sortUintArray_perm b).symm)
      (sortUintArray_sorted a) (sortUintArray_sorted b)

theorem arraysEqualLoop_iff {α : Type} [DecidableEq α] : ∀ (a b : List α),
    a.length = b.length → (arraysEqualLoop a b = true ↔ a = b) := by
  intro a
  induction a with
  | nil =>
    intro b hb
    cases b with
    | nil => simp [arraysEqualLoop]
    | cons y ys => simp at hb
  | cons x xs ih =>
    intro b hb
    cases b with
    | nil => simp at hb
    | cons y ys =>
      have hlen : xs.length = ys.length := by simpa using hb
      unfold arraysEqualLoop
      by_cases hxy : x = y
      · simp [hxy, ih ys hlen]
      · simp [hxy]

theorem arraysEqual_iff (a b : List Nat) : arraysEqual a b = true ↔ a = b := by
  unfold arraysEqual
  by_cases h : a.length = b.length
  · simp only [ne_eq, h, not_true_eq_false, if_false]
    exact arraysEqualLoop_iff a b h
  · simp only [ne_eq, h, not_false_eq_true, if_true]
    constructor
    · intro hf; cases hf
    · intro hab; exact absurd (congrArg List.length hab) h

theorem arraysEqualString_iff (a b : List String) : arraysEqualString a b = true ↔ a = b := by
  unfold arraysEqualString
  by_cases h : a.length = b.length
  · simp only [ne_eq, h, not_true_eq_false, if_false]
    exact arraysEqualLoop_iff a b h
  · simp only [ne_eq, h, not_false_eq_true, if_true]
    constructor
    · intro hf; cases hf
    · intro hab; exact absurd (congrArg List.length hab) h

/-! ## `checkAnswer`, multiple choice -/

theorem checkAnswer_multiple_choice (tbl : Char → Char) (db : Nat → Option Hadith)
    (req : CheckAnswerRequest) (hadith : Hadith) (hfound : db req.HadithID = some hadith)
    (htype : req.QuestionType = "multiple_choice") :
    checkAnswer tbl db req = .ok (CheckAnswerResponse.mk
      (arraysEqual (sortUintArray req.CompanionIDs)
        (sortUintArray (hadith.Companions.map (fun c => c.ID))) &&
      arraysEqual (sortUintArray req.SourceIDs)
        (sortUintArray (hadith.Sources.map (fun s => s.ID))))) := by
  simp [checkAnswer, hfound, checkAnswerOn, htype]

theorem arraysEqual_sort_iff_perm (a b : List Nat) :
    arraysEqual (sortUintArray a) (sortUintArray b) = true ↔ a.Perm b := by
  rw [arraysEqual_iff, sortUintArray_eq_iff_perm]

/-- C4: in the `multiple_choice` branch of `checkAnswer`, a submission whose
companion ids are a permutation of the true companion ids of the passage and
whose source ids are a permutation of its true source ids is judged correct. -/
theorem checkAnswer_multiple_choice_perm_correct (tbl : Char → Char)
    (db : Nat → Option Hadith) (req : CheckAnswerRequest) (hadith : Hadith)
    (hfound : db req.HadithID = some hadith)
    (htype : req.QuestionType = "multiple_choice")
    (hc : req.CompanionIDs.Perm (hadith.Companions.map (fun c => c.ID)))
    (hs : req.SourceIDs.Perm (hadith.Sources.map (fun s => s.ID))) :
    checkAnswer tbl db req = .ok { IsCorrect := true } := by
  rw [checkAnswer_multiple_choice tbl db req hadith hfound htype,
    (arraysEqual_sort_iff_perm _ _).mpr hc, (arraysEqual_sort_iff_perm _ _).mpr hs]
  rfl

/-- Witness of C4: the true ids `[1, 2, 3]` and `[7, 8]` submitted as
`[3, 1, 2]` and `[8, 7]`. -/
theorem checkAnswer_multiple_choice_perm_correct_witness :
    checkAnswer id
      (fun _ => some ⟨1, "text", [⟨1, "a"⟩, ⟨2, "b"⟩, ⟨3, "c"⟩], [⟨7, "x"⟩, ⟨8, "y"⟩]⟩)
      ⟨1, "multiple_choice", [3, 1, 2], [8, 7], [], []⟩ = .ok { IsCorrect := true } :=
  checkAnswer_multiple_choice_perm_correct id
    (fun _ => some ⟨1, "text", [⟨1, "a"⟩, ⟨2, "b"⟩, ⟨3, "c"⟩], [⟨7, "x"⟩, ⟨8, "y"⟩]⟩)
    ⟨1, "multiple_choice", [3, 1, 2], [8, 7], [], []⟩
    ⟨1, "text", [⟨1, "a"⟩, ⟨2, "b"⟩, ⟨3, "c"⟩], [⟨7, "x"⟩, ⟨8, "y"⟩]⟩
    rfl rfl (by decide) (by decide)

/-- C5, counterexample: the passage has the single companion id `1` and no
source; the submission `[1, 1]` has the same set of companion ids (and the same
empty set of source ids), yet it is judged incorrect. -/
theorem checkAnswer_multiple_choice_duplicate_incorrect :
    (([⟨1, "a"⟩] : List Companion).map (fun c => c.ID)).Nodup ∧
    ([1, 1] : List Nat).toFinset = (([⟨1, "a"⟩] : List Companion).map (fun c => c.ID)).toFinset ∧
    ([] : List Nat).toFinset = (([] : List Source).map (fun s => s.ID)).toFinset ∧
    checkAnswer id (fun _ => some ⟨1, "text", [⟨1, "a"⟩], []⟩)
      ⟨1, "multiple_choice", [1, 1], [], [], []⟩ = .ok { IsCorrect := false } := by
  refine ⟨by decide, by decide, by decide, rfl⟩

/-- C5, amended: in the `multiple_choice` branch of `checkAnswer` the answer
is judged correct if and only if the submitted companion ids are a permutation
of the true companion ids and the submitted source ids are a permutation of
the true source ids (same ids with the same multiplicities, in any order). -/
theorem checkAnswer_multiple_choice_correct_iff_perm (tbl : Char → Char)
    (db : Nat → Option Hadith) (req : CheckAnswerRequest) (hadith : Hadith)
    (hfound : db req.HadithID = some hadith)
    (htype : req.QuestionType = "multiple_choice") :
    checkAnswer tbl db req = .ok { IsCorrect := true } ↔
      req.CompanionIDs.Perm (hadith.Companions.map (fun c => c.ID)) ∧
      req.SourceIDs.Perm (hadith.Sources.map (fun s => s.ID)) := by
  rw [checkAnswer_multiple_choice tbl db req hadith hfound htype,
    ← arraysEqual_sort_iff_perm, ← arraysEqual_sort_iff_perm]
  constructor
  · intro h
    injection h with h
    injection h with h
    exact Bool.and_eq_true_iff.mp h
  · intro h
    rw [h.1, h.2]
    rfl

/-- Witness of the amended C5 on the passage with companion ids `[1, 2]` and
source id `[7]` and the submission `[2, 1]`, `[7]`. -/
theorem checkAnswer_multiple_choice_correct_iff_perm_witness :
    checkAnswer id (fun _ => some ⟨1, "text", [⟨1, "a"⟩, ⟨2, "b"⟩], [⟨7, "x"⟩]⟩)
      ⟨1, "multiple_choice", [2, 1], [7], [], []⟩ = .ok { IsCorrect := true } ↔
    ([2, 1] : List Nat).Perm
        (([⟨1, "a"⟩, ⟨2, "b"⟩] : List Companion).map (fun c => c.ID)) ∧
      ([7] : List Nat).Perm (([⟨7, "x"⟩] : List Source).map (fun s => s.ID)) :=
  checkAnswer_multiple_choice_correct_iff_perm id
    (fun _ => some ⟨1, "text", [⟨1, "a"⟩, ⟨2, "b"⟩], [⟨7, "x"⟩]⟩)
    ⟨1, "multiple_choice", [2, 1], [7], [], []⟩
    ⟨1, "text", [⟨1, "a"⟩, ⟨2, "b"⟩], [⟨7, "x"⟩]⟩ rfl rfl

/-! ## `checkAnswer`, fill in the blanks -/

theorem checkAnswer_fill_blanks_guard (tbl : Char → Char) (db : Nat → Option Hadith)
    (req : CheckAnswerRequest) (hadith : Hadith) (correctWords : List String)
    (hfound : db req.HadithID = some hadith) (htype : req.QuestionType = "fill_blanks")
    (hwords : 5 < (fields hadith.Text).length) (hne : req.BlankIndices ≠ [])
    (hcw : correctWordsAt (fields hadith.Text) req.BlankIndices = some correctWords) :
    checkAnswer tbl db req = .ok (CheckAnswerResponse.mk
      (arraysEqualString (req.FilledWords.map (fun word => toLower tbl (trimSpace word)))
        (correctWords.map (fun word => toLower tbl word)))) := by
  have hlen : 0 < req.BlankIndices.length := List.length_pos.mpr hne
  have hstr : ¬ ("fill_blanks" : String) = "multiple_choice" := by decide
  simp [checkAnswer, hfound, checkAnswerOn, htype, hstr, hwords, hlen, hcw]

theorem checkAnswer_fill_blanks_no_guard (tbl : Char → Char) (db : Nat → Option Hadith)
    (req : CheckAnswerRequest) (hadith : Hadith)
    (hfound : db req.HadithID = some hadith) (htype : req.QuestionType = "fill_blanks")
    (hguard : ¬ (5 < (fields hadith.Text).length ∧ req.BlankIndices ≠ [])) :
    checkAnswer tbl db req = .ok { IsCorrect := false } := by
  have hstr : ¬ ("fill_blanks" : String) = "multiple_choice" := by decide
  have hg : ¬ ((fields hadith.Text).length > 5 ∧ req.BlankIndices.length > 0) := by
    intro h
    exact hguard ⟨h.1, List.length_pos.mp h.2⟩
  simp only [checkAnswer, hfound, checkAnswerOn, htype, hstr, if_false, if_true, if_neg hg]

/-- The word lookup of lines 371-376 on positions inside the passage. -/
theorem correctWordsAt_in_range (words : List String) : ∀ (idxs : List Int),
    (∀ idx ∈ idxs, 0 ≤ idx ∧ idx < (words.length : Int)) →
    correctWordsAt words idxs = some (idxs.map (fun idx => words.getD idx.toNat "")) := by
  intro idxs
  induction idxs with
  | nil => intro _; rfl
  | cons idx rest ih =>
    intro h
    have hidx := h idx (List.mem_cons_self _ _)
    have hrest := ih (fun i hi => h i (List.mem_cons_of_mem _ hi))
    have hlt : idx.toNat < words.length := by omega
    have hw : wordAt words idx = some (words.getD idx.toNat "") := by
      unfold wordAt
      rw [if_neg (by omega), List.getElem?_eq_getElem hlt, List.getD_eq_getElem _ _ hlt]
    unfold correctWordsAt
    rw [if_pos hidx.2, hw, hrest]
    rfl

theorem map_eq_of_forall₂ {α β γ : Type} (f : α → γ) (g : β → γ) :
    ∀ (xs : List α) (ys : List β), List.Forall₂ (fun x y => f x = g y) xs ys →
    xs.map f = ys.map g := by
  intro xs ys h
  induction h with
  | nil => rfl
  | cons hxy _ ih => simp [hxy, ih]

/-- C6: in the `fill_blanks` branch of `checkAnswer`, for a passage of more
than 5 words and a non-empty list of positions inside the passage, a
submission whose filled words, position by position, trim and lowercase to the
lowercased true word is judged correct. -/
theorem checkAnswer_fill_blanks_case_padding_correct (tbl : Char → Char)
    (db : Nat → Option Hadith) (req : CheckAnswerRequest) (hadith : Hadith)
    (hfound : db req.HadithID = some hadith) (htype : req.QuestionType = "fill_blanks")
    (hwords : 5 < (fields hadith.Text).length) (hne : req.BlankIndices ≠ [])
    (hrange : ∀ idx ∈ req.BlankIndices, 0 ≤ idx ∧ idx < ((fields hadith.Text).length : Int))
    (hmatch : List.Forall₂
      (fun filled idx => toLower tbl (trimSpace filled) =
        toLower tbl ((fields hadith.Text).getD idx.toNat ""))
      req.FilledWords req.BlankIndices) :
    checkAnswer tbl db req = .ok { IsCorrect := true } := by
  have hcw := correctWordsAt_in_range (fields hadith.Text) req.BlankIndices hrange
  rw [checkAnswer_fill_blanks_guard tbl db req hadith _ hfound htype hwords hne hcw]
  have heq : req.FilledWords.map (fun word => toLower tbl (trimSpace word)) =
      (req.BlankIndices.map (fun idx => (fields hadith.Text).getD idx.toNat "")).map
        (fun word => toLower tbl word) := by
    rw [List.map_map]
    exact map_eq_of_forall₂ _ _ _ _ hmatch
  rw [(arraysEqualString_iff _ _).mpr heq]

/-- Witness of C6 on a seven-word passage: the words at positions 1 and 5
submitted as `" BETA"` and `"Zeta\t"`. -/
theorem checkAnswer_fill_blanks_case_padding_correct_witness :
    checkAnswer id (fun _ => some ⟨1, "alpha beta gamma delta epsilon zeta eta", [], []⟩)
      ⟨1, "fill_blanks", [], [], [" BETA", "Zeta\t"], [1, 5]⟩ = .ok { IsCorrect := true } :=
  checkAnswer_fill_blanks_case_padding_correct id
    (fun _ => some ⟨1, "alpha beta gamma delta epsilon zeta eta", [], []⟩)
    ⟨1, "fill_blanks", [], [], [" BETA", "Zeta\t"], [1, 5]⟩
    ⟨1, "alpha beta gamma delta epsilon zeta eta", [], []⟩
    rfl rfl (by decide) (by decide) (by decide)
    (List.Forall₂.cons (by decide) (List.Forall₂.cons (by decide) List.Forall₂.nil))

/-- Position-wise reading of the comparison of lines 379-389. -/
theorem lowered_eq_iff (tbl : Char → Char) (filled correct : List String) :
    filled.map (fun word => toLower tbl (trimSpace word)) =
        correct.map (fun word => toLower tbl word) ↔
      filled.length = correct.length ∧
      ∀ (i : Nat) (h1 : i < filled.length) (h2 : i < correct.length),
        toLower tbl (trimSpace (filled.get ⟨i, h1⟩)) = toLower tbl (correct.get ⟨i, h2⟩) := by
  constructor
  · intro h
    have hlen : filled.length = correct.length := by
      simpa using congrArg List.length h
    refine ⟨hlen, ?_⟩
    intro i h1 h2
    have := congrArg (fun l => l[i]?) h
    simpa [List.getElem?_map, List.getElem?_eq_getElem h1, List.getElem?_eq_getElem h2]
      using this
  · rintro ⟨hlen, hall⟩
    apply List.ext_getElem (by simpa using hlen)
    intro i h1 h2
    have h1f : i < filled.length := by simpa using h1
    have h2c : i < correct.length := by simpa using h2
    simpa using hall i h1f h2c

/-- Where the word lookup returns a list `correctWords` (no negative position
is submitted), a submission is judged incorrect whenever the number of filled
words differs from the number of extracted words, or some filled word, trimmed
and lowercased, differs from the lowercased true word at the same place. -/
theorem checkAnswer_fill_blanks_mismatch_incorrect (tbl : Char → Char)
    (db : Nat → Option Hadith) (req : CheckAnswerRequest) (hadith : Hadith)
    (correctWords : List String)
    (hfound : db req.HadithID = some hadith) (htype : req.QuestionType = "fill_blanks")
    (hcw : correctWordsAt (fields hadith.Text) req.BlankIndices = some correctWords)
    (hbad : req.FilledWords.length ≠ correctWords.length ∨
      ∃ (i : Nat) (h1 : i < req.FilledWords.length) (h2 : i < correctWords.length),
        toLower tbl (trimSpace (req.FilledWords.get ⟨i, h1⟩)) ≠
          toLower tbl (correctWords.get ⟨i, h2⟩)) :
    checkAnswer tbl db req = .ok { IsCorrect := false } := by
  by_cases hguard : 5 < (fields hadith.Text).length ∧ req.BlankIndices ≠ []
  · rw [checkAnswer_fill_blanks_guard tbl db req hadith correctWords hfound htype hguard.1
      hguard.2 hcw]
    have hne : ¬ arraysEqualString
        (req.FilledWords.map (fun word => toLower tbl (trimSpace word)))
        (correctWords.map (fun word => toLower tbl word)) = true := by
      rw [arraysEqualString_iff, lowered_eq_iff]
      rintro ⟨hlen, hall⟩
      rcases hbad with hb | ⟨i, h1, h2, hb⟩
      · exact hb hlen
      · exact hb (hall i h1 h2)
    rw [Bool.not_eq_true] at hne
    rw [hne]
  · exact checkAnswer_fill_blanks_no_guard tbl db req hadith hfound htype hguard

/-- A seven-word passage with one wrong word out of two is judged incorrect. -/
theorem checkAnswer_fill_blanks_mismatch_incorrect_witness :
    checkAnswer id (fun _ => some ⟨1, "alpha beta gamma delta epsilon zeta eta", [], []⟩)
      ⟨1, "fill_blanks", [], [], ["beta", "eta"], [1, 5]⟩ = .ok { IsCorrect := false } :=
  checkAnswer_fill_blanks_mismatch_incorrect id
    (fun _ => some ⟨1, "alpha beta gamma delta epsilon zeta eta", [], []⟩)
    ⟨1, "fill_blanks", [], [], ["beta", "eta"], [1, 5]⟩
    ⟨1, "alpha beta gamma delta epsilon zeta eta", [], []⟩ ["beta", "zeta"]
    rfl rfl (by decide) (Or.inr ⟨1, by decide, by decide, by decide⟩)

/-- C8, counterexample: on the three-word passage `a b c` the submission of
position `[0]` with the filled word `A` has the extracted true words `["a"]`,
of the same length as the filled words and equal to them after trimming and
lowercasing, yet it is judged incorrect. -/
theorem checkAnswer_fill_blanks_short_passage_incorrect :
    correctWordsAt (fields "a b c") [0] = some ["a"] ∧
    (["A"].map (fun word => toLower id (trimSpace word)) =
      ["a"].map (fun word => toLower id word)) ∧
    checkAnswer id (fun _ => some ⟨1, "a b c", [], []⟩)
      ⟨1, "fill_blanks", [], [], ["A"], [0]⟩ = .ok { IsCorrect := false } := by
  refine ⟨by decide, by decide, rfl⟩

/-- C8, amended: in the `fill_blanks` branch of `checkAnswer`, with
`correctWords` the true words extracted for the submitted positions, the
answer is judged correct if and only if the passage has more than 5 words, the
list of positions is not empty, the filled words and the extracted words have
the same length, and they agree at every place after trimming and
lowercasing. -/
theorem checkAnswer_fill_blanks_correct_iff (tbl : Char → Char)
    (db : Nat → Option Hadith) (req : CheckAnswerRequest) (hadith : Hadith)
    (correctWords : List String)
    (hfound : db req.HadithID = some hadith) (htype : req.QuestionType = "fill_blanks")
    (hcw : correctWordsAt (fields hadith.Text) req.BlankIndices = some correctWords) :
    checkAnswer tbl db req = .ok { IsCorrect := true } ↔
      5 < (fields hadith.Text).length ∧ req.BlankIndices ≠ [] ∧
      req.FilledWords.length = correctWords.length ∧
      ∀ (i : Nat) (h1 : i < req.FilledWords.length) (h2 : i < correctWords.length),
        toLower tbl (trimSpace (req.FilledWords.get ⟨i, h1⟩)) =
          toLower tbl (correctWords.get ⟨i, h2⟩) := by
  by_cases hguard : 5 < (fields hadith.Text).length ∧ req.BlankIndices ≠ []
  · rw [checkAnswer_fill_blanks_guard tbl db req hadith correctWords hfound htype hguard.1
      hguard.2 hcw, ← lowered_eq_iff, ← arraysEqualString_iff]
    constructor
    · intro h
      injection h with h
      injection h with h
      exact ⟨hguard.1, hguard.2, h⟩
    · intro h
      rw [h.2.2]
  · rw [checkAnswer_fill_blanks_no_guard tbl db req hadith hfound htype hguard]
    constructor
    · intro h
      injection h with h
      injection h with h
      cases h
    · intro h
      exact absurd ⟨h.1, h.2.1⟩ hguard

/-- Witness of the amended C8 on a seven-word passage. -/
theorem checkAnswer_fill_blanks_correct_iff_witness :
    checkAnswer id (fun _ => some ⟨1, "alpha beta gamma delta epsilon zeta eta", [], []⟩)
      ⟨1, "fill_blanks", [], [], [" BETA", "Zeta"], [1, 5]⟩ = .ok { IsCorrect := true } ↔
    5 < (fields "alpha beta gamma delta epsilon zeta eta").length ∧
      ([1, 5] : List Int) ≠ [] ∧
      [" BETA", "Zeta"].length = ["beta", "zeta"].length ∧
      ∀ (i : Nat) (h1 : i < [" BETA", "Zeta"].length) (h2 : i < ["beta", "zeta"].length),
        toLower id (trimSpace ([" BETA", "Zeta"].get ⟨i, h1⟩)) =
          toLower id (["beta", "zeta"].get ⟨i, h2⟩) :=
  checkAnswer_fill_blanks_correct_iff id
    (fun _ => some ⟨1, "alpha beta gamma delta epsilon zeta eta", [], []⟩)
    ⟨1, "fill_blanks", [], [], [" BETA", "Zeta"], [1, 5]⟩
    ⟨1, "alpha beta gamma delta epsilon zeta eta", [], []⟩ ["beta", "zeta"]
    rfl rfl (by decide)

/-- The word lookup panics exactly when a negative position is submitted. -/
theorem correctWordsAt_eq_none_iff (words : List String) : ∀ (idxs : List Int),
    correctWordsAt words idxs = none ↔ ∃ idx ∈ idxs, idx < 0 := by
  intro idxs
  induction idxs with
  | nil => simp [correctWordsAt]
  | cons idx rest ih =>
    unfold correctWordsAt
    by_cases hlt : idx < (words.length : Int)
    · rw [if_pos hlt]
      by_cases hneg : idx < 0
      · simp [wordAt, hneg]
      · have hn : idx.toNat < words.length := by omega
        have hw : wordAt words idx = some words[idx.toNat] := by
          unfold wordAt
          rw [if_neg hneg, List.getElem?_eq_getElem hn]
        rw [hw]
        simp only [Option.map_eq_none', List.mem_cons, exists_eq_or_imp, hneg, false_or]
        exact ih
    · rw [if_neg hlt, ih]
      have : ¬ idx < 0 := by omega
      simp [this]

/-! ## The worked example of the specification -/

/-- C9, counterexample: the passage has 11 words and its word at position 8
is `charity`, so the submission `["Said", " A ", "MERCY"]` for the positions
`[2, 5, 8]` is judged incorrect. -/
theorem checkAnswer_example_positions_2_5_8_incorrect :
    checkAnswer id (fun _ => some ⟨1, "The Prophet said kindness is a form of charity and mercy", [], []⟩)
      ⟨1, "fill_blanks", [], [], ["Said", " A ", "MERCY"], [2, 5, 8]⟩ =
        .ok { IsCorrect := false } := rfl

/-- C9, amended: for the passage of the example, whatever the case table
above ASCII, the filled words `["Said", " A ", "MERCY"]` are judged incorrect
for the positions `[2, 5, 8]`, whose true words are `said`, `a`, `charity`,
and are judged correct for the positions `[2, 5, 10]`; for the positions
`[2, 5, 8]` the filled words `["Said", " A ", "CHARITY"]` are judged correct. -/
theorem checkAnswer_example_amended (tbl : Char → Char) :
    correctWordsAt (fields "The Prophet said kindness is a form of charity and mercy") [2, 5, 8] = some ["said", "a", "charity"] ∧
    checkAnswer tbl (fun _ => some ⟨1, "The Prophet said kindness is a form of charity and mercy", [], []⟩)
      ⟨1, "fill_blanks", [], [], ["Said", " A ", "MERCY"], [2, 5, 8]⟩ =
        .ok { IsCorrect := false } ∧
    checkAnswer tbl (fun _ => some ⟨1, "The Prophet said kindness is a form of charity and mercy", [], []⟩)
      ⟨1, "fill_blanks", [], [], ["Said", " A ", "MERCY"], [2, 5, 10]⟩ =
        .ok { IsCorrect := true } ∧
    checkAnswer tbl (fun _ => some ⟨1, "The Prophet said kindness is a form of charity and mercy", [], []⟩)
      ⟨1, "fill_blanks", [], [], ["Said", " A ", "CHARITY"], [2, 5, 8]⟩ =
        .ok { IsCorrect := true } :=
  ⟨by decide, rfl, rfl, rfl⟩

/-- C10, counterexample: the passage of the example has 11 words, not 10, and
blanking it at the positions `[2, 5, 8]` gives neither the blank text nor the
blank words of the example. -/
theorem blankStep_example_differs :
    (fields "The Prophet said kindness is a form of charity and mercy").length ≠ 10 ∧
    (blankStep ⟨1, "The Prophet said kindness is a form of charity and mercy", "fill_blanks", [], [], "", [], []⟩ (fields "The Prophet said kindness is a form of charity and mercy")
      [2, 5, 8]).BlankText ≠ "The Prophet ____ kindness is ____ of charity and ____" ∧
    (blankStep ⟨1, "The Prophet said kindness is a form of charity and mercy", "fill_blanks", [], [], "", [], []⟩ (fields "The Prophet said kindness is a form of charity and mercy")
      [2, 5, 8]).BlankWords ≠ ["said", "a", "mercy"] := by
  refine ⟨by decide, by decide, by decide⟩

/-- C10, amended: the passage of the example has 11 words, and the blanking
step with the chosen positions `[2, 5, 8]` yields the blank text
`The Prophet ____ kindness is ____ form of ____ and mercy` and the blank words
`["said", "a", "charity"]`. -/
theorem blankStep_example_amended :
    (fields "The Prophet said kindness is a form of charity and mercy").length = 11 ∧
    (blankStep ⟨1, "The Prophet said kindness is a form of charity and mercy", "fill_blanks", [], [], "", [], []⟩ (fields "The Prophet said kindness is a form of charity and mercy")
      [2, 5, 8]).BlankText = "The Prophet ____ kindness is ____ form of ____ and mercy" ∧
    (blankStep ⟨1, "The Prophet said kindness is a form of charity and mercy", "fill_blanks", [], [], "", [], []⟩ (fields "The Prophet said kindness is a form of charity and mercy")
      [2, 5, 8]).BlankWords = ["said", "a", "charity"] ∧
    (blankStep ⟨1, "The Prophet said kindness is a form of charity and mercy", "fill_blanks", [], [], "", [], []⟩ (fields "The Prophet said kindness is a form of charity and mercy")
      [2, 5, 8]).BlankIndices = [2, 5, 8] := by
  refine ⟨by decide, by decide, by decide, by decide⟩

/-! ## More on the `fill_blanks` branch -/

theorem fillBlanks_blankIndices_nodup (quiz : QuizQuestion) (text : String) (g : Rand)
    (h : 5 < (fields text).length) : (fillBlanks quiz text g).1.BlankIndices.Nodup := by
  rw [fillBlanks_blankIndices quiz text g h]
  exact (((shuffled_perm _ _ h).nodup_iff).mpr (nodup_availableIndicesOf _)).sublist
    (List.take_sublist _ _)

theorem fillBlanks_blankIndices_mem (quiz : QuizQuestion) (text : String) (g : Rand)
    (h : 5 < (fields text).length) (idx : Int)
    (hidx : idx ∈ (fillBlanks quiz text g).1.BlankIndices) :
    1 ≤ idx ∧ idx ≤ ((fields text).length : Int) - 2 := by
  rw [fillBlanks_blankIndices quiz text g h] at hidx
  exact mem_availableIndicesOf ((shuffled_perm _ _ h).subset (List.mem_of_mem_take hidx))

theorem fillBlanks_blankIndices_length (quiz : QuizQuestion) (text : String) (g : Rand)
    (h : 5 < (fields text).length) :
    (fillBlanks quiz text g).1.BlankIndices.length = 2 + (Intn g 3).1 := by
  rw [fillBlanks_blankIndices quiz text g h, List.length_take,
    (shuffled_perm _ _ h).length_eq, length_availableIndicesOf]
  have : (Intn g 3).1 < 3 := Nat.mod_lt _ (by omega)
  unfold numBlanksOf
  split <;> omega

/-- With 5 words or fewer the branch changes nothing and draws nothing. -/
theorem fillBlanks_short (quiz : QuizQuestion) (text : String) (g : Rand)
    (h : (fields text).length ≤ 5) : fillBlanks quiz text g = (quiz, g) := by
  unfold fillBlanks
  have h5 : ¬ (fields text).length > 5 := by omega
  simp only [h5, if_false]

/-- C12: a `fill_blanks` question that `getRandomQuiz` produces from a passage
of 5 words or fewer has no blanking: its blank text is empty and its blank
words and blank indices are empty, whatever the draws. -/
theorem getRandomQuiz_short_passage_no_blanks (hadiths : List Hadith)
    (allCompanions : List Companion) (allSources : List Source) (allowedTypes : String)
    (g : Rand) (q : QuizQuestion)
    (hq : getRandomQuiz hadiths allCompanions allSources allowedTypes g = .ok q)
    (htyp : q.Typ = "fill_blanks") (hshort : (fields q.Text).length ≤ 5) :
    q.BlankText = "" ∧ q.BlankWords = [] ∧ q.BlankIndices = [] := by
  obtain ⟨hadith, _, g2, hqeq⟩ :=
    getRandomQuiz_fill_blanks hadiths allCompanions allSources allowedTypes g q hq htyp
  have htext : q.Text = hadith.Text := by
    rw [hqeq]
    exact (fillBlanks_typ _ _ _).2.2
  rw [htext] at hshort
  rw [fillBlanks_short _ _ _ hshort] at hqeq
  rw [hqeq]
  exact ⟨rfl, rfl, rfl⟩

/-- Witness of C12 on the five-word passage `a b c d e`. -/
theorem getRandomQuiz_short_passage_no_blanks_witness :
    (fields "a b c d e").length ≤ 5 ∧
    getRandomQuiz [⟨1, "a b c d e", [], []⟩] [] [] "fill_blanks" (fun _ => 0) =
      .ok ⟨1, "a b c d e", "fill_blanks", [], [], "", [], []⟩ ∧
    (⟨1, "a b c d e", "fill_blanks", [], [], "", [], []⟩ : QuizQuestion).BlankText = "" ∧
    (⟨1, "a b c d e", "fill_blanks", [], [], "", [], []⟩ : QuizQuestion).BlankWords = [] ∧
    (⟨1, "a b c d e", "fill_blanks", [], [], "", [], []⟩ : QuizQuestion).BlankIndices = [] :=
  ⟨by decide, rfl,
   getRandomQuiz_short_passage_no_blanks [⟨1, "a b c d e", [], []⟩] [] [] "fill_blanks"
     (fun _ => 0) ⟨1, "a b c d e", "fill_blanks", [], [], "", [], []⟩ rfl rfl (by decide)⟩

/-- C16, counterexample: on the six-word passage `a b c d e f` with the draws
`2, 0, 2, 1` the branch blanks 4 positions, which is every one of the
`6 - 2 = 4` interior positions. -/
theorem fillBlanks_all_interior_blanked :
    5 < (fields "a b c d e f").length ∧
    (fillBlanks ⟨1, "a b c d e f", "fill_blanks", [], [], "", [], []⟩ "a b c d e f"
      (fun k => [2, 0, 2, 1].getD k 0)).1.BlankIndices = [4, 2, 3, 1] ∧
    (fillBlanks ⟨1, "a b c d e f", "fill_blanks", [], [], "", [], []⟩ "a b c d e f"
      (fun k => [2, 0, 2, 1].getD k 0)).1.BlankText = "a ____ ____ ____ ____ f" ∧
    ¬ (fillBlanks ⟨1, "a b c d e f", "fill_blanks", [], [], "", [], []⟩ "a b c d e f"
      (fun k => [2, 0, 2, 1].getD k 0)).1.BlankIndices.length <
        (fields "a b c d e f").length - 2 := by
  refine ⟨by decide, by decide, by decide, by decide⟩

/-- C16, amended: for a passage of more than 5 words and every outcome of the
draws, the number of blanked positions is at most the number `wordCount-2` of
interior positions, and strictly less when the passage has more than 6 words;
the first and the last position are never blanked. -/
theorem fillBlanks_count_le_interior (quiz : QuizQuestion) (text : String) (g : Rand)
    (h : 5 < (fields text).length) :
    (fillBlanks quiz text g).1.BlankIndices.length ≤ (fields text).length - 2 ∧
    (6 < (fields text).length →
      (fillBlanks quiz text g).1.BlankIndices.length < (fields text).length - 2) ∧
    (0 : Int) ∉ (fillBlanks quiz text g).1.BlankIndices ∧
    (((fields text).length : Int) - 1) ∉ (fillBlanks quiz text g).1.BlankIndices := by
  have hlen := fillBlanks_blankIndices_length quiz text g h
  have hdraw : (Intn g 3).1 < 3 := Nat.mod_lt _ (by omega)
  refine ⟨by omega, fun h6 => by omega, ?_, ?_⟩
  · intro h0
    have := fillBlanks_blankIndices_mem quiz text g h 0 h0
    omega
  · intro hl
    have := fillBlanks_blankIndices_mem quiz text g h _ hl
    omega

/-- Witness of the amended C16 on the six-word passage `a b c d e f`. -/
theorem fillBlanks_count_le_interior_witness :
    5 < (fields "a b c d e f").length ∧
    (fillBlanks ⟨1, "a b c d e f", "fill_blanks", [], [], "", [], []⟩ "a b c d e f"
      (fun k => [2, 0, 2, 1].getD k 0)).1.BlankIndices.length ≤
        (fields "a b c d e f").length - 2 ∧
    (6 < (fields "a b c d e f").length →
      (fillBlanks ⟨1, "a b c d e f", "fill_blanks", [], [], "", [], []⟩ "a b c d e f"
        (fun k => [2, 0, 2, 1].getD k 0)).1.BlankIndices.length <
          (fields "a b c d e f").length - 2) ∧
    (0 : Int) ∉ (fillBlanks ⟨1, "a b c d e f", "fill_blanks", [], [], "", [], []⟩
      "a b c d e f" (fun k => [2, 0, 2, 1].getD k 0)).1.BlankIndices ∧
    (((fields "a b c d e f").length : Int) - 1) ∉
      (fillBlanks ⟨1, "a b c d e f", "fill_blanks", [], [], "", [], []⟩
        "a b c d e f" (fun k => [2, 0, 2, 1].getD k 0)).1.BlankIndices :=
  ⟨by decide,
   fillBlanks_count_le_interior ⟨1, "a b c d e f", "fill_blanks", [], [], "", [], []⟩
     "a b c d e f" (fun k => [2, 0, 2, 1].getD k 0) (by decide)⟩

/-! ## The question types of `getRandomQuiz` -/

theorem questionTypesOf_eq (allowedTypes : String) :
    questionTypesOf allowedTypes =
      if allowedTypes = "" ∨ recognizedTypes allowedTypes = [] then
        ["multiple_choice", "fill_blanks"]
      else recognizedTypes allowedTypes := by
  unfold questionTypesOf recognizedTypes
  by_cases h : allowedTypes = ""
  · simp [h]
  · by_cases hr : ((splitComma allowedTypes).map trimSpace).filter
        (fun t => t = "multiple_choice" ∨ t = "fill_blanks") = []
    · simp [h, hr]
    · simp only [ne_eq, h, not_false_eq_true, if_true, false_or, hr, if_false,
        List.length_eq_zero]

theorem mem_recognizedTypes (allowedTypes t : String) (h : t ∈ recognizedTypes allowedTypes) :
    t = "multiple_choice" ∨ t = "fill_blanks" := by
  unfold recognizedTypes at h
  have := (List.mem_filter.mp h).2
  simpa using this

/-- The effective list of question types in terms of the filtered list that
the handler builds. -/
theorem questionTypesOf_spec (allowedTypes : String) :
    questionTypesOf allowedTypes ≠ [] ∧
    (∀ t ∈ questionTypesOf allowedTypes, t = "multiple_choice" ∨ t = "fill_blanks") ∧
    (allowedTypes = "" ∨ recognizedTypes allowedTypes = [] →
      questionTypesOf allowedTypes = ["multiple_choice", "fill_blanks"]) ∧
    (¬ (allowedTypes = "" ∨ recognizedTypes allowedTypes = []) →
      questionTypesOf allowedTypes = recognizedTypes allowedTypes) := by
  rw [questionTypesOf_eq]
  by_cases h : allowedTypes = "" ∨ recognizedTypes allowedTypes = []
  · rw [if_pos h]
    refine ⟨by simp, ?_, fun _ => rfl, fun hn => absurd h hn⟩
    intro t ht
    simpa using ht
  · rw [if_neg h]
    refine ⟨fun he => h (Or.inr he), ?_, fun hp => absurd hp h, fun _ => rfl⟩
    exact fun t ht => mem_recognizedTypes allowedTypes t ht

/-- Values of the effective list on a few parameters. -/
theorem questionTypesOf_examples :
    questionTypesOf "" = ["multiple_choice", "fill_blanks"] ∧
    questionTypesOf "essay, quiz" = ["multiple_choice", "fill_blanks"] ∧
    questionTypesOf " fill_blanks ,x" = ["fill_blanks"] ∧
    questionTypesOf "fill_blanks,multiple_choice,fill_blanks" =
      ["fill_blanks", "multiple_choice", "fill_blanks"] := by
  refine ⟨by decide, by decide, by decide, by decide⟩

/-! ## `checkAnswer`, other question types and the round trip -/

/-- C14: for an existing passage and a submission whose question type is
neither `multiple_choice` nor `fill_blanks`, `checkAnswer` answers
`is_correct = false` without an error, whatever the other fields are. -/
theorem checkAnswer_unknown_type_incorrect (tbl : Char → Char) (db : Nat → Option Hadith)
    (req : CheckAnswerRequest) (hadith : Hadith) (hfound : db req.HadithID = some hadith)
    (hmc : req.QuestionType ≠ "multiple_choice") (hfb : req.QuestionType ≠ "fill_blanks") :
    checkAnswer tbl db req = .ok { IsCorrect := false } := by
  simp only [checkAnswer, hfound, checkAnswerOn, if_neg hmc, if_neg hfb]

/-- Witness of C14: the question type `essay` with out-of-range positions. -/
theorem checkAnswer_unknown_type_incorrect_witness :
    checkAnswer id (fun _ => some ⟨1, "a b c d e f", [⟨1, "a"⟩], []⟩)
      ⟨1, "essay", [1], [], ["x"], [-1, 99]⟩ = .ok { IsCorrect := false } :=
  checkAnswer_unknown_type_incorrect id (fun _ => some ⟨1, "a b c d e f", [⟨1, "a"⟩], []⟩)
    ⟨1, "essay", [1], [], ["x"], [-1, 99]⟩ ⟨1, "a b c d e f", [⟨1, "a"⟩], []⟩ rfl
    (by decide) (by decide)

/-- C15, at the failing input: for the stored passage `a b c d e f`, the
parameter `types=fill_blanks` and the raw draws `7, 9, 0, 0, 2, 1`,
`getRandomQuiz` answers the blank words `["c", "e"]` with the blank indices
`[4, 2]`, and `checkAnswer` judges exactly this pair incorrect. -/
theorem round_trip_rejected :
    getRandomQuiz [⟨1, "a b c d e f", [], []⟩] [] [] "fill_blanks"
      (fun k => [7, 9, 0, 0, 2, 1].getD k 0) =
      .ok ⟨1, "a b c d e f", "fill_blanks", [], [], "a b ____ d ____ f", ["c", "e"], [4, 2]⟩ ∧
    correctWordsAt (fields "a b c d e f") [4, 2] = some ["e", "c"] ∧
    checkAnswer id (fun _ => some ⟨1, "a b c d e f", [], []⟩)
      ⟨1, "fill_blanks", [], [], ["c", "e"], [4, 2]⟩ = .ok { IsCorrect := false } := by
  refine ⟨rfl, by decide, rfl⟩

/-! ## The word lookup of the verifier and the revealer -/

/-- On non-negative positions the word lookup returns the words at the
positions below the word count, in the submitted order. -/
theorem correctWordsAt_nonneg (words : List String) : ∀ (idxs : List Int),
    (∀ idx ∈ idxs, 0 ≤ idx) →
    correctWordsAt words idxs =
      some ((idxs.filter (fun idx => idx < (words.length : Int))).map
        (fun idx => words.getD idx.toNat "")) := by
  intro idxs
  induction idxs with
  | nil => intro _; rfl
  | cons idx rest ih =>
    intro h
    have hidx := h idx (List.mem_cons_self _ _)
    have hrest := ih (fun i hi => h i (List.mem_cons_of_mem _ hi))
    unfold correctWordsAt
    by_cases hlt : idx < (words.length : Int)
    · have hn : idx.toNat < words.length := by omega
      have hw : wordAt words idx = some (words.getD idx.toNat "") := by
        unfold wordAt
        rw [if_neg (by omega), List.getElem?_eq_getElem hn, List.getD_eq_getElem _ _ hn]
      rw [if_pos hlt, hw, hrest]
      simp [hlt]
    · rw [if_neg hlt, hrest]
      simp [hlt]

/-- C17, at the failing input: for the stored passage `a b c d e f` the
position `-1` makes both handlers panic: `checkAnswer` with the blank indices
`[-1]`, and `getCorrectAnswer` with `blank_indices=-1`. -/
theorem word_lookup_negative_position_panics :
    correctWordsAt (fields "a b c d e f") [-1] = none ∧
    checkAnswer id (fun _ => some ⟨1, "a b c d e f", [], []⟩)
      ⟨1, "fill_blanks", [], [], ["x"], [-1]⟩ = .error .panicked ∧
    getCorrectAnswer (fun _ => some ⟨1, "a b c d e f", [], []⟩) "1" "fill_blanks" "-1" =
      .error .panicked := by
  refine ⟨by decide, rfl, rfl⟩

/-! ## `sortUintArray` and its argument -/

theorem sortInit_sorted (arr : List Nat) : (sortInit arr).sorted = arr := by
  simp [sortInit, copySlice]

theorem sortUintArrayMem_sorted (arr : List Nat) :
    (sortUintArrayMem arr).sorted = sortUintArray arr := by
  simp only [sortUintArrayMem, sortInit_sorted, sortUintArray]

/-- C19: for every slice of unsigned integers, the slice returned by
`sortUintArray` is in non-decreasing order and is a permutation of the
argument, and the argument is left as it was. -/
theorem sortUintArray_sorted_perm_input_kept (arr : List Nat) :
    (sortUintArrayMem arr).sorted.Sorted (· ≤ ·) ∧
    (sortUintArrayMem arr).sorted.Perm arr ∧
    (sortUintArrayMem arr).arr = arr ∧
    sortUintArray arr = (sortUintArrayMem arr).sorted := by
  rw [sortUintArrayMem_sorted]
  exact ⟨sortUintArray_sorted arr, sortUintArray_perm arr, rfl, rfl⟩

/-! ## The blank words -/

/-- The blank words collected by the loop from position `k` on are the words
at the blanked positions, in ascending order of position. -/
theorem blankLoop_fst (idxs : List Int) : ∀ (ws : List String) (k : Nat),
    (blankLoop idxs k ws).1 =
      (((List.range' k ws.length).map (fun (i : Nat) => (i : Int))).filter
        (fun i => shouldBlank i idxs)).map (fun p => ws.getD (p.toNat - k) "") := by
  intro ws
  induction ws with
  | nil => intro k; rfl
  | cons w rest ih =>
    intro k
    have htail : (((List.range' (k + 1) rest.length).map (fun (i : Nat) => (i : Int))).filter
          (fun i => shouldBlank i idxs)).map (fun p => (w :: rest).getD (p.toNat - k) "") =
        (((List.range' (k + 1) rest.length).map (fun (i : Nat) => (i : Int))).filter
          (fun i => shouldBlank i idxs)).map (fun p => rest.getD (p.toNat - (k + 1)) "") := by
      apply List.map_congr_left
      intro p hp
      have hp2 := (List.mem_filter.mp hp).1
      rcases List.mem_map.mp hp2 with ⟨i, hi, rfl⟩
      have hik := (List.mem_range'_1.mp hi).1
      have e : ((i : Int)).toNat - k = (i - (k + 1)) + 1 := by
        simp only [Int.toNat_ofNat]
        omega
      rw [e, List.getD_cons_succ]
      simp only [Int.toNat_ofNat]
    rw [List.length_cons, List.range'_succ, List.map_cons, List.filter_cons]
    unfold blankLoop
    by_cases hb : shouldBlank (k : Int) idxs = true
    · rw [if_pos hb, if_pos hb, List.map_cons, htail, ← ih (k + 1)]
      simp
    · rw [if_neg hb, if_neg hb, htail, ← ih (k + 1)]

theorem fillBlanks_blankWords (quiz : QuizQuestion) (text : String) (g : Rand)
    (h : 5 < (fields text).length) :
    (fillBlanks quiz text g).1.BlankWords =
      (blankLoop (fillBlanks quiz text g).1.BlankIndices 0 (fields text)).1 := by
  simp [fillBlanks, h, blankStep]

/-- C11: for a passage of more than 5 words and every outcome of the draws,
the blank words are the words of the passage at the chosen positions taken in
increasing order of position: they are the words at the entries of the
strictly ascending rearrangement of the blank indices. -/
theorem fillBlanks_blankWords_ascending (quiz : QuizQuestion) (text : String) (g : Rand)
    (h : 5 < (fields text).length) :
    (fillBlanks quiz text g).1.BlankWords =
      (blankedPositions (fields text).length (fillBlanks quiz text g).1.BlankIndices).map
        (fun p => (fields text).getD p.toNat "") ∧
    (blankedPositions (fields text).length (fillBlanks quiz text g).1.BlankIndices).Sorted
      (· < ·) ∧
    (blankedPositions (fields text).length (fillBlanks quiz text g).1.BlankIndices).Perm
      (fillBlanks quiz text g).1.BlankIndices := by
  refine ⟨?_, sorted_blankedPositions _ _, ?_⟩
  · rw [fillBlanks_blankWords quiz text g h, blankLoop_fst, ← List.range_eq_range']
    rfl
  · rw [List.perm_ext_iff_of_nodup (sorted_blankedPositions _ _).nodup
      (fillBlanks_blankIndices_nodup quiz text g h)]
    intro i
    rw [mem_blankedPositions]
    constructor
    · exact fun hi => hi.2
    · intro hi
      have := fillBlanks_blankIndices_mem quiz text g h i hi
      exact ⟨⟨by omega, by omega⟩, hi⟩

/-- Witness of C11 on the passage `a b c d e f` with the draws `0, 0, 2, 1`:
the blank indices `[4, 2]` give the blank words `["c", "e"]`. -/
theorem fillBlanks_blankWords_ascending_witness :
    (fillBlanks ⟨1, "a b c d e f", "fill_blanks", [], [], "", [], []⟩ "a b c d e f"
      (fun k => [0, 0, 2, 1].getD k 0)).1.BlankWords =
      (blankedPositions (fields "a b c d e f").length
        (fillBlanks ⟨1, "a b c d e f", "fill_blanks", [], [], "", [], []⟩ "a b c d e f"
          (fun k => [0, 0, 2, 1].getD k 0)).1.BlankIndices).map
        (fun p => (fields "a b c d e f").getD p.toNat "") :=
  (fillBlanks_blankWords_ascending ⟨1, "a b c d e f", "fill_blanks", [], [], "", [], []⟩
    "a b c d e f" (fun k => [0, 0, 2, 1].getD k 0) (by decide)).1

/-! ## Splitting the blank text again -/

/-- Every word that `strings.Fields` cuts is non-empty and free of white
space. -/
theorem fieldsAux_clean : ∀ (cs cur : List Char), (∀ c ∈ cur, isSpace c = false) →
    ∀ w ∈ fieldsAux cs cur, w.data ≠ [] ∧ ∀ c ∈ w.data, isSpace c = false := by
  intro cs
  induction cs with
  | nil =>
    intro cur hcur w hw
    unfold fieldsAux at hw
    cases cur with
    | nil => simp at hw
    | cons c cur2 =>
      simp only [List.isEmpty_cons, Bool.false_eq_true, if_false, List.mem_singleton] at hw
      subst hw
      exact ⟨by simp, hcur⟩
  | cons c cs ih =>
    intro cur hcur w hw
    unfold fieldsAux at hw
    by_cases hsp : isSpace c = true
    · rw [if_pos hsp] at hw
      cases cur with
      | nil =>
        simp only [List.isEmpty_nil, if_true] at hw
        exact ih [] (by simp) w hw
      | cons d cur2 =>
        simp only [List.isEmpty_cons, Bool.false_eq_true, if_false, List.mem_cons] at hw
        rcases hw with hw | hw
        · subst hw
          exact ⟨by simp, hcur⟩
        · exact ih [] (by simp) w hw
    · rw [if_neg hsp] at hw
      refine ih (cur ++ [c]) ?_ w hw
      intro x hx
      rcases List.mem_append.mp hx with hx | hx
      · exact hcur x hx
      · rw [List.mem_singleton.mp hx]
        simpa using hsp

theorem fields_clean (s : String) :
    ∀ w ∈ fields s, w.data ≠ [] ∧ ∀ c ∈ w.data, isSpace c = false :=
  fieldsAux_clean s.data [] (by simp)

theorem fieldsAux_cons_nonspace (c : Char) (cs cur : List Char) (hc : isSpace c = false) :
    fieldsAux (c :: cs) cur = fieldsAux cs (cur ++ [c]) := by
  rw [fieldsAux, hc]
  simp

theorem fieldsAux_cons_space (c d : Char) (cs cur : List Char) (hc : isSpace c = true) :
    fieldsAux (c :: cs) (d :: cur) = String.mk (d :: cur) :: fieldsAux cs [] := by
  rw [fieldsAux, hc]
  simp

/-- Reading a run of non-space characters only extends the current word. -/
theorem fieldsAux_append_word : ∀ (w rest cur : List Char), (∀ c ∈ w, isSpace c = false) →
    fieldsAux (w ++ rest) cur = fieldsAux rest (cur ++ w) := by
  intro w
  induction w with
  | nil => intro rest cur _; simp
  | cons c w ih =>
    intro rest cur hw
    rw [List.cons_append, fieldsAux_cons_nonspace c _ _ (hw c (List.mem_cons_self _ _)),
      ih rest (cur ++ [c]) (fun x hx => hw x (List.mem_cons_of_mem _ hx))]
    simp

/-- Words separated by single spaces are cut apart again. -/
theorem fieldsAux_spaced : ∀ (ws : List String) (cur : List Char), cur ≠ [] →
    (∀ w ∈ ws, w.data ≠ [] ∧ ∀ c ∈ w.data, isSpace c = false) →
    fieldsAux ((ws.map (fun w => ' ' :: w.data)).flatten) cur = String.mk cur :: ws := by
  intro ws
  induction ws with
  | nil =>
    intro cur hcur _
    cases cur with
    | nil => exact absurd rfl hcur
    | cons d cur2 => simp [fieldsAux]
  | cons a ws ih =>
    intro cur hcur hws
    have ha := hws a (List.mem_cons_self _ _)
    cases cur with
    | nil => exact absurd rfl hcur
    | cons d cur2 =>
      rw [List.map_cons, List.flatten_cons, List.cons_append,
        fieldsAux_cons_space ' ' d _ cur2 (by decide),
        fieldsAux_append_word a.data _ [] ha.2, List.nil_append,
        ih a.data ha.1 (fun w hw => hws w (List.mem_cons_of_mem _ hw))]

theorem intercalate_go_data (sep : String) : ∀ (l : List String) (acc : String),
    (String.intercalate.go acc sep l).data =
      acc.data ++ (l.map (fun w => sep.data ++ w.data)).flatten := by
  intro l
  induction l with
  | nil => intro acc; simp [String.intercalate.go]
  | cons a l ih =>
    intro acc
    simp [String.intercalate.go, ih, String.data_append, List.append_assoc]

/-- `strings.Fields` undoes `strings.Join` with a single space on words that
are non-empty and free of white space. -/
theorem fields_join (ws : List String)
    (hws : ∀ w ∈ ws, w.data ≠ [] ∧ ∀ c ∈ w.data, isSpace c = false) :
    fields (join ws " ") = ws := by
  unfold fields join
  cases ws with
  | nil => rfl
  | cons a ws =>
    have ha := hws a (List.mem_cons_self _ _)
    show fieldsAux (String.intercalate.go a " " ws).data [] = a :: ws
    rw [intercalate_go_data]
    have hsep : (" " : String).data = [' '] := rfl
    simp only [hsep, List.singleton_append]
    rw [fieldsAux_append_word a.data _ [] ha.2, List.nil_append,
      fieldsAux_spaced ws a.data ha.1 (fun w hw => hws w (List.mem_cons_of_mem _ hw))]

theorem blankLoop_snd_length (idxs : List Int) : ∀ (ws : List String) (k : Nat),
    (blankLoop idxs k ws).2.length = ws.length := by
  intro ws
  induction ws with
  | nil => intro k; rfl
  | cons w rest ih =>
    intro k
    unfold blankLoop
    split <;> simp [ih (k + 1)]

/-- The loop puts the placeholder at the blanked positions and keeps the
other words. -/
theorem blankLoop_snd_getD (idxs : List Int) : ∀ (ws : List String) (k i : Nat),
    i < ws.length →
    (blankLoop idxs k ws).2.getD i "" =
      if shouldBlank ((k + i : Nat) : Int) idxs then "____" else ws.getD i "" := by
  intro ws
  induction ws with
  | nil => intro k i hi; simp at hi
  | cons w rest ih =>
    intro k i hi
    cases i with
    | zero =>
      unfold blankLoop
      by_cases hb : shouldBlank (k : Int) idxs = true
      · simp [hb]
      · simp [hb]
    | succ i =>
      have hi2 : i < rest.length := by simpa using hi
      have hrec := ih (k + 1) i hi2
      have e : k + (i + 1) = k + 1 + i := by omega
      unfold blankLoop
      by_cases hb : shouldBlank (k : Int) idxs = true
      · rw [if_pos hb, List.getD_cons_succ, List.getD_cons_succ, hrec, e]
      · rw [if_neg hb, List.getD_cons_succ, List.getD_cons_succ, hrec, e]

theorem blankLoop_snd_mem (idxs : List Int) : ∀ (ws : List String) (k : Nat),
    ∀ w ∈ (blankLoop idxs k ws).2, w = "____" ∨ w ∈ ws := by
  intro ws
  induction ws with
  | nil => intro k w hw; simp [blankLoop] at hw
  | cons v rest ih =>
    intro k w hw
    unfold blankLoop at hw
    by_cases hb : shouldBlank (k : Int) idxs = true
    · rw [if_pos hb] at hw
      rcases List.mem_cons.mp hw with hw | hw
      · exact Or.inl hw
      · rcases ih (k + 1) w hw with h | h
        · exact Or.inl h
        · exact Or.inr (List.mem_cons_of_mem _ h)
    · rw [if_neg hb] at hw
      rcases List.mem_cons.mp hw with hw | hw
      · exact Or.inr (hw ▸ List.mem_cons_self _ _)
      · rcases ih (k + 1) w hw with h | h
        · exact Or.inl h
        · exact Or.inr (List.mem_cons_of_mem _ h)

theorem fillBlanks_blankText (quiz : QuizQuestion) (text : String) (g : Rand)
    (h : 5 < (fields text).length) :
    (fillBlanks quiz text g).1.BlankText =
      join (blankLoop (fillBlanks quiz text g).1.BlankIndices 0 (fields text)).2 " " := by
  simp [fillBlanks, h, blankStep]

/-- Splitting the blank text gives back the list built by the loop. -/
theorem fields_blankText (quiz : QuizQuestion) (text : String) (g : Rand)
    (h : 5 < (fields text).length) :
    fields (fillBlanks quiz text g).1.BlankText =
      (blankLoop (fillBlanks quiz text g).1.BlankIndices 0 (fields text)).2 := by
  rw [fillBlanks_blankText quiz text g h]
  apply fields_join
  intro w hw
  rcases blankLoop_snd_mem _ _ _ w hw with hw | hw
  · subst hw
    exact ⟨by decide, by decide⟩
  · exact fields_clean text w hw

/-- C18: for a passage of more than 5 words and every outcome of the draws,
splitting the blank text on white space gives exactly `wordCount` words; the
word at index `i` is the placeholder `____` if `i` is one of the blank
indices and the word of the passage at index `i` otherwise. -/
theorem fillBlanks_blankText_words (quiz : QuizQuestion) (text : String) (g : Rand)
    (h : 5 < (fields text).length) :
    (fields (fillBlanks quiz text g).1.BlankText).length = (fields text).length ∧
    ∀ i : Nat, i < (fields text).length →
      (fields (fillBlanks quiz text g).1.BlankText).getD i "" =
        if (i : Int) ∈ (fillBlanks quiz text g).1.BlankIndices then "____"
        else (fields text).getD i "" := by
  rw [fields_blankText quiz text g h]
  refine ⟨blankLoop_snd_length _ _ _, ?_⟩
  intro i hi
  rw [blankLoop_snd_getD _ _ 0 i hi, Nat.zero_add]
  by_cases hm : (i : Int) ∈ (fillBlanks quiz text g).1.BlankIndices
  · rw [if_pos hm, if_pos ((shouldBlank_iff_mem _ _).mpr hm)]
  · rw [if_neg hm, if_neg (fun hs => hm ((shouldBlank_iff_mem _ _).mp hs))]

/-- Witness of C18 on the passage `a b c d e f` with the draws `0, 0, 2, 1`,
blank text `a b ____ d ____ f`. -/
theorem fillBlanks_blankText_words_witness :
    (fillBlanks ⟨1, "a b c d e f", "fill_blanks", [], [], "", [], []⟩ "a b c d e f"
      (fun k => [0, 0, 2, 1].getD k 0)).1.BlankText = "a b ____ d ____ f" ∧
    (fields (fillBlanks ⟨1, "a b c d e f", "fill_blanks", [], [], "", [], []⟩ "a b c d e f"
      (fun k => [0, 0, 2, 1].getD k 0)).1.BlankText).length = (fields "a b c d e f").length ∧
    ∀ i : Nat, i < (fields "a b c d e f").length →
      (fields (fillBlanks ⟨1, "a b c d e f", "fill_blanks", [], [], "", [], []⟩ "a b c d e f"
        (fun k => [0, 0, 2, 1].getD k 0)).1.BlankText).getD i "" =
        if (i : Int) ∈ (fillBlanks ⟨1, "a b c d e f", "fill_blanks", [], [], "", [], []⟩
          "a b c d e f" (fun k => [0, 0, 2, 1].getD k 0)).1.BlankIndices then "____"
        else (fields "a b c d e f").getD i "" :=
  ⟨by decide,
   fillBlanks_blankText_words ⟨1, "a b c d e f", "fill_blanks", [], [], "", [], []⟩
     "a b c d e f" (fun k => [0, 0, 2, 1].getD k 0) (by decide)⟩

/-! ## The `types` parameter, entry by entry -/

theorem splitCommaAux_cons_other (c : Char) (cs cur : List Char) (hc : c ≠ ',') :
    splitCommaAux (c :: cs) cur = splitCommaAux cs (cur ++ [c]) := by
  rw [splitCommaAux, if_neg hc]

theorem splitCommaAux_cons_comma (cs cur : List Char) :
    splitCommaAux (',' :: cs) cur = String.mk cur :: splitCommaAux cs [] := by
  rw [splitCommaAux, if_pos rfl]

/-- Reading a run of characters other than the comma only extends the
current piece. -/
theorem splitCommaAux_append_piece : ∀ (w rest cur : List Char), ',' ∉ w →
    splitCommaAux (w ++ rest) cur = splitCommaAux rest (cur ++ w) := by
  intro w
  induction w with
  | nil => intro rest cur _; simp
  | cons c w ih =>
    intro rest cur hw
    have hc : c ≠ ',' := fun h => hw (h ▸ List.mem_cons_self _ _)
    rw [List.cons_append, splitCommaAux_cons_other c _ _ hc,
      ih rest (cur ++ [c]) (fun h => hw (List.mem_cons_of_mem _ h))]
    simp

theorem splitCommaAux_commas : ∀ (es : List String) (cur : List Char),
    (∀ e ∈ es, ',' ∉ e.data) →
    splitCommaAux ((es.map (fun e => ',' :: e.data)).flatten) cur = String.mk cur :: es := by
  intro es
  induction es with
  | nil => intro cur _; simp [splitCommaAux]
  | cons a es ih =>
    intro cur hes
    rw [List.map_cons, List.flatten_cons, List.cons_append, splitCommaAux_cons_comma,
      splitCommaAux_append_piece a.data _ [] (hes a (List.mem_cons_self _ _)), List.nil_append,
      ih a.data (fun e he => hes e (List.mem_cons_of_mem _ he))]

/-- `strings.Split(s, ",")` gives back the entries that were joined by commas. -/
theorem splitComma_intercalate (es : List String) (hne : es ≠ [])
    (hes : ∀ e ∈ es, ',' ∉ e.data) : splitComma (",".intercalate es) = es := by
  cases es with
  | nil => exact absurd rfl hne
  | cons a es =>
    unfold splitComma
    show splitCommaAux (String.intercalate.go a "," es).data [] = a :: es
    rw [intercalate_go_data]
    have hsep : ("," : String).data = [','] := rfl
    simp only [hsep, List.singleton_append]
    rw [splitCommaAux_append_piece a.data _ [] (hes a (List.mem_cons_self _ _)), List.nil_append,
      splitCommaAux_commas es a.data (fun e he => hes e (List.mem_cons_of_mem _ he))]

/-- Every string is its trimmed form with white space in front and behind. -/
theorem paddedFrom_trimSpace (e : String) : PaddedFrom e (trimSpace e) := by
  refine ⟨e.data.takeWhile isSpace,
    (((e.data.dropWhile isSpace).reverse).takeWhile isSpace).reverse, ?_, ?_, ?_⟩
  · intro c hc
    exact (List.mem_takeWhile_imp hc)
  · intro c hc
    exact (List.mem_takeWhile_imp (List.mem_reverse.mp hc))
  · have h1 := List.takeWhile_append_dropWhile isSpace e.data
    have h2 := List.takeWhile_append_dropWhile isSpace (e.data.dropWhile isSpace).reverse
    have h3 : e.data.dropWhile isSpace =
        (((e.data.dropWhile isSpace).reverse).dropWhile isSpace).reverse ++
          (((e.data.dropWhile isSpace).reverse).takeWhile isSpace).reverse := by
      rw [← List.reverse_append, h2, List.reverse_reverse]
    show e.data = _ ++ (trimSpace e).data ++ _
    unfold trimSpace
    rw [List.append_assoc, ← h3, h1]

/-- Trimming removes the padding of a string that neither starts nor ends
with white space. -/
theorem trimSpace_of_paddedFrom (e t : String) (a b : Char) (x y : List Char)
    (ht : t.data = a :: x) (ha : isSpace a = false)
    (htr : t.data.reverse = b :: y) (hb : isSpace b = false)
    (h : PaddedFrom e t) : trimSpace e = t := by
  obtain ⟨l, r, hl, hr, hdata⟩ := h
  have hrr : ∀ c ∈ r.reverse, isSpace c = true := fun c hc => hr c (List.mem_reverse.mp hc)
  unfold trimSpace
  rw [hdata, List.append_assoc, List.dropWhile_append_of_pos hl, ht, List.cons_append,
    List.dropWhile_cons, ha]
  simp only [Bool.false_eq_true, if_false]
  rw [← List.cons_append, ← ht, List.reverse_append, List.dropWhile_append_of_pos hrr, htr,
    List.dropWhile_cons, hb]
  simp only [Bool.false_eq_true, if_false]
  rw [← htr, List.reverse_reverse]

theorem paddedFrom_multiple_choice_iff (e : String) :
    PaddedFrom e "multiple_choice" ↔ trimSpace e = "multiple_choice" := by
  constructor
  · exact trimSpace_of_paddedFrom e "multiple_choice" 'm' 'e' _ _ rfl (by decide) rfl (by decide)
  · intro h
    exact h ▸ paddedFrom_trimSpace e

theorem paddedFrom_fill_blanks_iff (e : String) :
    PaddedFrom e "fill_blanks" ↔ trimSpace e = "fill_blanks" := by
  constructor
  · exact trimSpace_of_paddedFrom e "fill_blanks" 'f' 's' _ _ rfl (by decide) rfl (by decide)
  · intro h
    exact h ▸ paddedFrom_trimSpace e

/-- The trimmed entries that are one of the two literals are the kinds the
entries stand for. -/
theorem filter_trimSpace_eq_kinds (entries : List String) (kinds : List (Option String))
    (h : List.Forall₂ EntryKind entries kinds) :
    ((entries.map trimSpace).filter (fun t => t = "multiple_choice" ∨ t = "fill_blanks")) =
      kinds.reduceOption := by
  induction h with
  | nil => rfl
  | @cons e k es ks hek _ ih =>
    rw [List.map_cons, List.filter_cons]
    rcases hek with ⟨hk, hp⟩ | ⟨hk, hp⟩ | ⟨hk, hp1, hp2⟩
    · have ht := (paddedFrom_multiple_choice_iff e).mp hp
      subst hk
      rw [List.reduceOption_cons_of_some, ← ih, ht]
      simp
    · have ht := (paddedFrom_fill_blanks_iff e).mp hp
      subst hk
      rw [List.reduceOption_cons_of_some, ← ih, ht]
      simp
    · have h1 : ¬ trimSpace e = "multiple_choice" :=
        fun ht => hp1 ((paddedFrom_multiple_choice_iff e).mpr ht)
      have h2 : ¬ trimSpace e = "fill_blanks" :=
        fun ht => hp2 ((paddedFrom_fill_blanks_iff e).mpr ht)
      subst hk
      rw [List.reduceOption_cons_of_none, ← ih]
      simp [h1, h2]

/-- Every value of the parameter is the comma-join of the comma-free entries
that `strings.Split` cuts, and there is at least one entry. -/
theorem splitCommaAux_spec : ∀ (cs cur : List Char), ',' ∉ cur →
    (∀ e ∈ splitCommaAux cs cur, ',' ∉ e.data) ∧
    ∃ a rest, splitCommaAux cs cur = a :: rest ∧
      a.data ++ (rest.map (fun e => ',' :: e.data)).flatten = cur ++ cs := by
  intro cs
  induction cs with
  | nil =>
    intro cur hcur
    refine ⟨?_, String.mk cur, [], rfl, by simp⟩
    intro e he
    simp only [splitCommaAux, List.mem_singleton] at he
    subst he
    exact hcur
  | cons c cs ih =>
    intro cur hcur
    by_cases hc : c = ','
    · subst hc
      obtain ⟨hfree, a, rest, heq, hdata⟩ := ih [] (by simp)
      rw [splitCommaAux_cons_comma]
      refine ⟨?_, String.mk cur, a :: rest, by rw [heq], ?_⟩
      · intro e he
        rcases List.mem_cons.mp he with he | he
        · subst he
          exact hcur
        · exact hfree e he
      · rw [List.map_cons, List.flatten_cons, List.cons_append, hdata]
        simp
    · rw [splitCommaAux_cons_other c cs cur hc]
      have hcur2 : ',' ∉ cur ++ [c] := by
        intro h
        rcases List.mem_append.mp h with h | h
        · exact hcur h
        · exact hc (List.mem_singleton.mp h).symm
      obtain ⟨hfree, a, rest, heq, hdata⟩ := ih (cur ++ [c]) hcur2
      refine ⟨hfree, a, rest, heq, ?_⟩
      rw [hdata]
      simp

theorem splitComma_spec (s : String) :
    splitComma s ≠ [] ∧ (∀ e ∈ splitComma s, ',' ∉ e.data) ∧
      ",".intercalate (splitComma s) = s := by
  obtain ⟨hfree, a, rest, heq, hdata⟩ := splitCommaAux_spec s.data [] (by simp)
  unfold splitComma
  refine ⟨by rw [heq]; simp, hfree, ?_⟩
  rw [heq]
  have hgo : (String.intercalate.go a "," rest).data = s.data := by
    rw [intercalate_go_data]
    have hsep : ("," : String).data = [','] := rfl
    simp only [hsep, List.singleton_append]
    simpa using hdata
  show String.intercalate.go a "," rest = s
  exact String.ext hgo

/-- Every entry stands for exactly one kind, the one read off its trimmed
form. -/
theorem entryKind_of_trimSpace (e : String) :
    EntryKind e (if trimSpace e = "multiple_choice" then some "multiple_choice"
      else if trimSpace e = "fill_blanks" then some "fill_blanks" else none) := by
  by_cases h1 : trimSpace e = "multiple_choice"
  · rw [if_pos h1]
    exact Or.inl ⟨rfl, (paddedFrom_multiple_choice_iff e).mpr h1⟩
  · rw [if_neg h1]
    by_cases h2 : trimSpace e = "fill_blanks"
    · rw [if_pos h2]
      exact Or.inr (Or.inl ⟨rfl, (paddedFrom_fill_blanks_iff e).mpr h2⟩)
    · rw [if_neg h2]
      exact Or.inr (Or.inr ⟨rfl, fun h => h1 ((paddedFrom_multiple_choice_iff e).mp h),
        fun h => h2 ((paddedFrom_fill_blanks_iff e).mp h)⟩)

/-- Every value of the parameter has a reading as comma-joined entries with
their kinds, so the entry-wise statement below covers every request. -/
theorem exists_entries_kinds (allowedTypes : String) :
    ∃ (entries : List String) (kinds : List (Option String)),
      allowedTypes = ",".intercalate entries ∧ entries ≠ [] ∧
      (∀ e ∈ entries, ',' ∉ e.data) ∧ List.Forall₂ EntryKind entries kinds := by
  obtain ⟨hne, hfree, hjoin⟩ := splitComma_spec allowedTypes
  refine ⟨splitComma allowedTypes,
    (splitComma allowedTypes).map (fun e =>
      if trimSpace e = "multiple_choice" then some "multiple_choice"
      else if trimSpace e = "fill_blanks" then some "fill_blanks" else none),
    hjoin.symm, hne, hfree, ?_⟩
  rw [List.forall₂_map_right_iff]
  exact List.forall₂_same.mpr (fun e _ => entryKind_of_trimSpace e)

/-- C13: for every value of the `types` parameter, read as the comma-join of
its comma-free entries, the effective list of question types is non-empty and
holds only `multiple_choice` and `fill_blanks`; it is exactly both types when
the parameter is empty or no entry is one of the two literals up to
surrounding white space, and otherwise it is exactly the kinds of the
recognized entries in the order given. -/
theorem questionTypesOf_entrywise (allowedTypes : String) (entries : List String)
    (kinds : List (Option String))
    (hsplit : allowedTypes = ",".intercalate entries) (hne : entries ≠ [])
    (hfree : ∀ e ∈ entries, ',' ∉ e.data)
    (hkinds : List.Forall₂ EntryKind entries kinds) :
    questionTypesOf allowedTypes ≠ [] ∧
    (∀ t ∈ questionTypesOf allowedTypes, t = "multiple_choice" ∨ t = "fill_blanks") ∧
    (allowedTypes = "" ∨ kinds.reduceOption = [] →
      questionTypesOf allowedTypes = ["multiple_choice", "fill_blanks"]) ∧
    (kinds.reduceOption ≠ [] → questionTypesOf allowedTypes = kinds.reduceOption) := by
  have hrec : recognizedTypes allowedTypes = kinds.reduceOption := by
    unfold recognizedTypes
    rw [hsplit, splitComma_intercalate entries hne hfree]
    exact filter_trimSpace_eq_kinds entries kinds hkinds
  have hempty : allowedTypes = "" → kinds.reduceOption = [] := by
    intro h
    rw [← hrec, h]
    decide
  obtain ⟨h1, h2, h3, h4⟩ := questionTypesOf_spec allowedTypes
  refine ⟨h1, h2, ?_, ?_⟩
  · intro h
    apply h3
    rcases h with h | h
    · exact Or.inl h
    · exact Or.inr (hrec.trans h)
  · intro h
    rw [← hrec]
    apply h4
    rintro (hs | hr)
    · exact h (hempty hs)
    · exact h (hrec ▸ hr)

/-- Witness of C13: the parameter ` fill_blanks ,x,multiple_choice` followed by
a tab has the entries ` fill_blanks `, `x` and `multiple_choice` with a tab,
of kinds `fill_blanks`, none and `multiple_choice`. -/
theorem questionTypesOf_entrywise_witness :
    questionTypesOf " fill_blanks ,x,multiple_choice\t" = ["fill_blanks", "multiple_choice"] :=
  (questionTypesOf_entrywise " fill_blanks ,x,multiple_choice\t"
    [" fill_blanks ", "x", "multiple_choice\t"]
    [some "fill_blanks", none, some "multiple_choice"]
    (by decide) (by decide) (by decide)
    (List.Forall₂.cons (Or.inr (Or.inl ⟨rfl, [' '], [' '], by decide, by decide, rfl⟩))
      (List.Forall₂.cons
        (Or.inr (Or.inr ⟨rfl,
          fun h => absurd ((paddedFrom_multiple_choice_iff "x").mp h) (by decide),
          fun h => absurd ((paddedFrom_fill_blanks_iff "x").mp h) (by decide)⟩))
        (List.Forall₂.cons (Or.inl ⟨rfl, [], ['\t'], by decide, by decide, rfl⟩)
          List.Forall₂.nil)))).2.2.2 (by decide)

/-- C7, at the failing input: for the stored passage `a b c d e f`, the blank
indices `[-1]` and the filled words `["x", "y"]` (more filled words than
positions, so their number differs from the number of words extracted,
whatever is extracted), `checkAnswer` panics at `words[-1]` and gives no
answer, where a mismatching submission is to be judged incorrect. -/
theorem checkAnswer_fill_blanks_mismatch_panics :
    5 < (fields "a b c d e f").length ∧
    ([-1] : List Int).length < ["x", "y"].length ∧
    correctWordsAt (fields "a b c d e f") [-1] = none ∧
    checkAnswer id (fun _ => some ⟨1, "a b c d e f", [], []⟩)
      ⟨1, "fill_blanks", [], [], ["x", "y"], [-1]⟩ = .error .panicked := by
  refine ⟨by decide, by decide, by decide, rfl⟩

end HadithQuiz
